import Mathlib

/-!
Verification of the asynchronous OCR batch pipeline of the pdf_utils web
application (`src/web_app/services/ocr_service.py` and its cache module),
as a shallow embedding in Lean.

Conventions of the embedding:
* Python strings are `String`; byte payloads of generated PDF subsets are
  abstracted as the list of retained 0-based page indices (the only
  observable the pipeline inspects).
* Fallible calls (PDF subset creation, the LLM client) return
  `Except String`; an `Except.error` models a raised exception carrying
  `str(e)`.
* The external world (document identity, page count, LLM behaviour per
  attempt, offline extractor behaviour) is an explicit `Env` record, and
  the persistent cache is threaded as an explicit association list: each
  chunk only ever touches its own key, so sequential threading is
  observationally equivalent to the concurrent execution.
-/

set_option autoImplicit false

namespace PdfOcr

/-- One decimal digit character, as produced by Python `str` on 0–9. -/
def digitChar (n : Nat) : Char :=
  match n with
  | 0 => '0' | 1 => '1' | 2 => '2' | 3 => '3' | 4 => '4'
  | 5 => '5' | 6 => '6' | 7 => '7' | 8 => '8' | _ => '9'

/-- Numeric value of a digit character. -/
def digitVal (c : Char) : Nat := c.toNat - 48

/-- Fuel-driven decimal digit expansion (most significant digit first). -/
def natDigitsAux : Nat → Nat → List Char
  | 0, _ => []
  | fuel+1, n =>
    if n < 10 then [digitChar n]
    else natDigitsAux fuel (n / 10) ++ [digitChar (n % 10)]

/-- Decimal representation of a natural number, as Python `str(int)`. -/
def natDigits (n : Nat) : List Char := natDigitsAux (n + 1) n

/-- Decimal representation as a `String`. -/
def natRepr (n : Nat) : String := (natDigits n).asString

/-- Decode a digit string back to the number it denotes (Python `int`). -/
def decodeDigits (l : List Char) : Nat := l.foldl (fun a c => 10 * a + digitVal c) 0

/-- Body of the Python `str` rendering of a list of ints: numbers joined by a
comma and a space. -/
def listReprBody : List Nat → List Char
  | [] => []
  | [n] => natDigits n
  | n :: m :: rest => natDigits n ++ ',' :: ' ' :: listReprBody (m :: rest)

/-- Python `str` on a list of ints, e.g. `[1, 2, 3]`. -/
def listRepr (l : List Nat) : String := ('[' :: listReprBody l ++ [']']).asString

/-- Either empty, or starting with a non-digit character. -/
def headNotDigit : List Char → Prop
  | [] => True
  | c :: _ => c.isDigit = false

/-- Python `sorted` on a list of page numbers (stable, ascending). -/
def pySorted (l : List Nat) : List Nat := List.insertionSort (· ≤ ·) l

/-- Stable identity of the source document, mirroring the fields used by
`create_cache_key`: `pdf_path.name`, `stats.st_size` and `stats.st_mtime`
(the printed form of the modification time is kept opaque as a string). -/
structure DocIdentity where
  name : String
  size : Nat
  mtime : String
deriving DecidableEq, Repr

/-- Modelled from the spec: `compute_content_hash` is imported by
`ocr_service.py` from the cache module but is not present in the source
tree. Section 4.1 of the spec describes it as a deterministic,
collision-resistant cryptographic hash over a canonical string encoding;
an ideal collision-resistant hash is modelled as an injective map on the
canonical key string (the identity embedding). -/
def compute_content_hash (s : String) : String := s

/-- `create_cache_key` from `ocr_service.py`: the canonical key string
`f"{pdf_path.name}:{stats.st_size}:{stats.st_mtime}:{sorted(page_nums)}"`,
passed through the content hash. -/
def create_cache_key (doc : DocIdentity) (page_nums : List Nat) : String :=
  compute_content_hash
    (doc.name ++ ":" ++ natRepr doc.size ++ ":" ++ doc.mtime ++ ":"
      ++ listRepr (pySorted page_nums))

/-- A cached OCR entry: text and the two token counts. -/
abbrev CacheVal := String × Nat × Nat

/-- The persistent OCR cache (one entry per key, as the SQLite table keyed
by its primary key). -/
abbrev Cache := List (String × CacheVal)

/-- `get_cached_ocr`: the row with the given key, if present. -/
def cacheLookup : Cache → String → Option CacheVal
  | [], _ => none
  | (k₂, v) :: rest, k => if k₂ = k then some v else cacheLookup rest k

/-- `save_ocr_to_cache`: INSERT OR REPLACE of a row by its key. -/
def cachePut : Cache → String → CacheVal → Cache
  | [], k, v => [(k, v)]
  | (k₂, v₂) :: rest, k, v =>
    if k₂ = k then (k, v) :: rest else (k₂, v₂) :: cachePut rest k v

/-- Outcome of one call of the LLM OCR client: response text and token
usage. -/
structure LLMResponse where
  text : String
  input_tokens : Nat
  output_tokens : Nat
deriving DecidableEq, Repr

/-- The external world of one batch: document identity and page count, the
LLM client behaviour (per attempt number and chunk; `Except.error` models a
raised exception or timeout), and the two offline extraction layers used by
`extract_with_pymupdf_fallback`. -/
structure Env where
  doc : DocIdentity
  pageCount : Nat
  llm : Nat → List Nat → Except String LLMResponse
  pymupdf4llmOut : Nat → Except String String
  pymupdfBasicOut : Nat → Except String String

/-- `create_pdf_subset_bytes`: keep the 0-based indices of the requested
1-based pages that fall inside the document; raise only when none do. The
produced bytes are abstracted as the retained 0-based page indices. -/
def create_pdf_subset_bytes (pageCount : Nat) (page_nums : List Nat) :
    Except String (List Nat) :=
  let zero_based :=
    page_nums.filterMap (fun p => if 1 ≤ p ∧ p ≤ pageCount then some (p - 1) else none)
  if zero_based = [] then
    Except.error ("Page numbers " ++ listRepr page_nums ++ " are out of range for the document.")
  else
    Except.ok zero_based

/-- `extract_with_pymupdf_fallback`: markdown extraction first, then basic
text extraction, then an error placeholder. Never raises. -/
def extract_with_pymupdf_fallback (env : Env) (page_num : Nat) : String :=
  match env.pymupdf4llmOut page_num with
  | Except.ok t => t
  | Except.error _ =>
    match env.pymupdfBasicOut page_num with
    | Except.ok t => t
    | Except.error e =>
      "[Error extracting text from page " ++ natRepr page_num ++ ": " ++ e ++ "]"

/-- Literal characters of the fixed part of the page marker before the page
number. -/
def markerPre : List Char := ("--- Page ").data

/-- Literal characters of the fixed part of the page marker after the page
number. -/
def markerPost : List Char := (" ---").data

/-- Drop `p` from the front of `s` when `p` is an initial segment of `s`. -/
def dropPref : List Char → List Char → Option (List Char)
  | [], s => some s
  | _ :: _, [] => none
  | p :: ps, c :: cs => if c = p then dropPref ps cs else none

/-- Try to match the regex `--- Page \d+ ---` at the start of `s`, returning
the page number and the remaining characters after the match. ASCII digits
only (the pipeline only ever sees markers it prompted for). -/
def tryMarker (s : List Char) : Option (Nat × List Char) :=
  match dropPref markerPre s with
  | none => none
  | some r₁ =>
    let ds := r₁.takeWhile Char.isDigit
    if ds = [] then none
    else
      match dropPref markerPost (r₁.dropWhile Char.isDigit) with
      | none => none
      | some r₃ => some (decodeDigits ds, r₃)

/-- One left-to-right scan producing both `re.split(r'--- Page \d+ ---', s)`
(the parts) and `re.findall(r'--- Page (\d+) ---', s)` (the header numbers).
Fuel-driven; each step consumes at least one character, so fuel equal to the
length of the input is always enough. -/
def scanAux : Nat → List Char → List (List Char) × List Nat
  | 0, s => ([s], [])
  | fuel+1, s =>
    match s with
    | [] => ([[]], [])
    | c :: rest =>
      match tryMarker s with
      | some (n, after) =>
        let res := scanAux fuel after
        ([] :: res.1, n :: res.2)
      | none =>
        let res := scanAux fuel rest
        (match res.1 with
         | [] => [[c]]
         | p :: ps => (c :: p) :: ps, res.2)

/-- Split a response on page markers: parts between markers, and the page
numbers named by the markers. -/
def scanMarkers (s : List Char) : List (List Char) × List Nat := scanAux s.length s

/-- Python `str.strip()`: drop whitespace from both ends (structurally over
the character list, so that it evaluates by kernel reduction). -/
def pyStrip (s : String) : String :=
  ((s.data.dropWhile Char.isWhitespace).reverse.dropWhile Char.isWhitespace).reverse.asString

/-- Python dict lookup for the assignment-ordered association list built by
the parser: the last assignment to a key wins. -/
def dictGet (l : List (Nat × String)) (k : Nat) : Option String :=
  l.foldl (fun acc kv => if kv.1 = k then some kv.2 else acc) none

/-- The marker text assigned to non-first pages when the response cannot be
split as expected. -/
def parseFailedMarker : String := "[OCR Parsing Failed]"

/-- The placeholder used when a page of the chunk has no parsed text at
all. -/
def parseErrorMarker : String := "[OCR Parsing Error]"

/-- `parse_llm_response`: single-page chunks take the whole trimmed
response; multi-page chunks are split on `--- Page N ---` markers, with the
header-to-segment assignment only when the counts agree, and the
first-page-takes-all fallback otherwise. Returns the dict as its assignment
sequence (`[]` for an empty chunk, which the pipeline never produces). -/
def parse_llm_response (response_text : String) (page_nums : List Nat) :
    List (Nat × String) :=
  match page_nums with
  | [] => []
  | [p] => [(p, pyStrip response_text)]
  | p :: q :: rest =>
    let scanned := scanMarkers response_text.data
    let headers := scanned.2
    let cleaned_parts :=
      (scanned.1.map (fun part => pyStrip part.asString)).filter (fun t => t ≠ "")
    if headers.length = cleaned_parts.length then
      (headers.zip cleaned_parts).filter (fun hc => (p :: q :: rest).contains hc.1)
    else
      (p, pyStrip response_text) :: (q :: rest).map (fun x => (x, parseFailedMarker))

/-- Python truthiness of an optional text: `None` and the empty string are
falsy. -/
def truthy : Option String → Bool
  | none => false
  | some t => t != ""

/-- One per-page outcome record, with the fields of the result dictionaries
built by `process_page_chunk`. -/
structure PageResult where
  page : Nat
  text : Option String
  input_tokens : Nat
  output_tokens : Nat
  method : String
  success : Bool
  error : Option String
  retry_count : Nat
deriving DecidableEq, Repr

/-- Combined text plus token usage plus provenance, as returned by
`ocr_pdf_subset_with_llm`. -/
structure OcrOutcome where
  text : String
  input_tokens : Nat
  output_tokens : Nat
  method : String
deriving DecidableEq, Repr

/-- The fallible part of one chunk: subset creation, then the cache-checked
LLM OCR call (`ocr_pdf_subset_with_llm`). Returns the outcome or the raised
exception, the cache after the call, and the number of LLM calls issued
(0 or 1). -/
def runChunkOcr (env : Env) (attempt : Nat) (cache : Cache) (page_nums : List Nat) :
    Except String OcrOutcome × Cache × Nat :=
  match create_pdf_subset_bytes env.pageCount page_nums with
  | Except.error e => (Except.error e, cache, 0)
  | Except.ok _subset =>
    match cacheLookup cache (create_cache_key env.doc page_nums) with
    | some v => (Except.ok ⟨v.1, v.2.1, v.2.2, "cached"⟩, cache, 0)
    | none =>
      match env.llm attempt page_nums with
      | Except.error e => (Except.error e, cache, 1)
      | Except.ok r =>
        (Except.ok ⟨r.text, r.input_tokens, r.output_tokens, "llm"⟩,
         cachePut cache (create_cache_key env.doc page_nums)
           (r.text, r.input_tokens, r.output_tokens), 1)

/-- The per-page record built on the success path of `process_page_chunk`:
parsed text (or the parsing-error placeholder), token counts split evenly by
integer division, `success=True`. -/
def successResult (o : OcrOutcome) (n : Nat) (parsed : List (Nat × String)) (p : Nat) :
    PageResult :=
  { page := p
    text := some ((dictGet parsed p).getD parseErrorMarker)
    input_tokens := o.input_tokens / n
    output_tokens := o.output_tokens / n
    method := o.method
    success := true
    error := none
    retry_count := 0 }

/-- The per-page record built on the exception path of
`process_page_chunk`. -/
def failedResult (e : String) (p : Nat) : PageResult :=
  { page := p
    text := none
    input_tokens := 0
    output_tokens := 0
    method := "failed"
    success := false
    error := some e
    retry_count := 0 }

/-- `process_page_chunk`: the try/except body. Every exception from the
fallible pipeline is converted into one failed record per page of the
chunk; the success path emits one successful record per page. -/
def process_page_chunk (env : Env) (attempt : Nat) (cache : Cache) (page_nums : List Nat) :
    List PageResult × Cache × Nat :=
  match runChunkOcr env attempt cache page_nums with
  | (Except.ok o, c₂, calls) =>
    let parsed := parse_llm_response o.text page_nums
    (page_nums.map (successResult o page_nums.length parsed), c₂, calls)
  | (Except.error e, c₂, calls) => (page_nums.map (failedResult e), c₂, calls)

/-- Greedy grouping of a page list into consecutive chunks of at most `k`
pages (the while-loops of `process_document_async` and
`retry_failed_chunks`). Fuel-driven; any positive `k` consumes at least one
element per step. -/
def chunkListAux : Nat → List Nat → Nat → List (List Nat)
  | 0, _, _ => []
  | _, [], _ => []
  | fuel+1, x :: xs, k => (x :: xs).take k :: chunkListAux fuel ((x :: xs).drop k) k

/-- Group pages into chunks of `OCR_PAGES_PER_CHUNK`-many pages. -/
def chunkList (l : List Nat) (k : Nat) : List (List Nat) := chunkListAux l.length l k

/-- Sequential model of `asyncio.gather` over the chunk tasks of one
attempt: results concatenated in task order, the cache threaded through
(each task only touches its own key), and LLM calls summed. -/
def runChunks (env : Env) (attempt : Nat) : List (List Nat) → Cache →
    List PageResult × Cache × Nat
  | [], cache => ([], cache, 0)
  | chunk :: rest, cache =>
    let r₁ := process_page_chunk env attempt cache chunk
    let r₂ := runChunks env attempt rest r₁.2.1
    (r₁.1 ++ r₂.1, r₂.2.1, r₁.2.2 + r₂.2.2)

/-- `retry_failed_chunks`: regroup the sorted failed page numbers into fresh
chunks, dispatch them, and tag every produced record with
`retry_count = attempt`. (The backoff sleep is timing only and is not
modelled.) -/
def retry_failed_chunks (env : Env) (pagesPerChunk : Nat) (failedPages : List PageResult)
    (attempt : Nat) (cache : Cache) : List PageResult × Cache × Nat :=
  let failed_page_nums := pySorted (failedPages.map (fun r => r.page))
  let chunks := chunkList failed_page_nums pagesPerChunk
  let r := runChunks env attempt chunks cache
  (r.1.map (fun x => { x with retry_count := attempt }), r.2.1, r.2.2)

/-- Replace the first record with the given page number, as the inner
`for j, original_result in enumerate(all_results)` replacement loop. A
record with an unmatched page number is dropped. -/
def replaceByPage : List PageResult → PageResult → List PageResult
  | [], _ => []
  | x :: xs, r => if x.page = r.page then r :: xs else x :: replaceByPage xs r

/-- One step of the retry-merge loop: a successful retry record replaces the
aggregate entry of its page; a failed one is collected as still failed. -/
def mergeStep (acc : List PageResult × List PageResult) (rr : PageResult) :
    List PageResult × List PageResult :=
  if rr.success then (replaceByPage acc.1 rr, acc.2) else (acc.1, acc.2 ++ [rr])

/-- The merge loop of `process_document_async` over one attempt's retry
results: returns the updated aggregate and the still-failed records. -/
def mergeRetryResults (allResults : List PageResult) (retryResults : List PageResult) :
    List PageResult × List PageResult :=
  retryResults.foldl mergeStep (allResults, [])

/-- Running state of the orchestrator across retry attempts, with two pieces
of instrumentation: the number of LLM calls issued so far and, per executed
attempt, the sorted list of page numbers that were resubmitted. -/
structure BatchAcc where
  results : List PageResult
  failedPages : List PageResult
  cache : Cache
  llmCalls : Nat
  retryTrace : List (Nat × List Nat)

/-- The retry loop of `process_document_async`: one iteration per attempt
number, stopping early when no pages remain failed. -/
def retryLoop (env : Env) (pagesPerChunk : Nat) : List Nat → BatchAcc → BatchAcc
  | [], acc => acc
  | attempt :: rest, acc =>
    if acc.failedPages.isEmpty then acc
    else
      let r := retry_failed_chunks env pagesPerChunk acc.failedPages attempt acc.cache
      let merged := mergeRetryResults acc.results r.1
      retryLoop env pagesPerChunk rest
        { results := merged.1
          failedPages := merged.2
          cache := r.2.1
          llmCalls := acc.llmCalls + r.2.2
          retryTrace := acc.retryTrace ++ [(attempt, pySorted (acc.failedPages.map (fun x => x.page)))] }

/-- The offline-fallback phase: every record still failed is finalized with
the offline extractor's text, `method="pymupdf_fallback"`, `success=True`
(the extractor is total, so the fallback-failed branch of the source is
unreachable). Its `retry_count` field is left as it was. -/
def applyFallback (env : Env) (results : List PageResult) : List PageResult :=
  results.map (fun r =>
    if r.success then r
    else { r with
            text := some (extract_with_pymupdf_fallback env r.page)
            method := "pymupdf_fallback"
            success := true
            error := none })

/-- The final in-place sort of the aggregate by page number. -/
def sortByPage (rs : List PageResult) : List PageResult :=
  List.insertionSort (fun a b => a.page ≤ b.page) rs

/-- The page marker prefixed to each page's text in the aggregate output. -/
def pageHeader (p : Nat) : String := "--- Page " ++ natRepr p ++ " ---"

/-- The text parts of the final aggregate: one entry per record with truthy
text (Python `if result["text"]` skips both `None` and the empty string). -/
def buildTextParts (rs : List PageResult) : List String :=
  rs.filterMap (fun r =>
    match r.text with
    | some t => if t = "" then none else some (pageHeader r.page ++ "\n" ++ t)
    | none => none)

/-- The dictionary returned by `process_document_async` (timing fields and
the human-readable summary string are advisory telemetry and are not
modelled). -/
structure BatchResult where
  full_text : String
  text_parts : List String
  total_input_tokens : Nat
  total_output_tokens : Nat
  successful_pages : List Nat
  failed_pages : List (Nat × Option String)
  cached_pages : List Nat
  llm_pages : List Nat
  fallback_pages : List Nat
  pages_processed : Nat
  retry_count : Nat
  tokens_saved : Nat
deriving DecidableEq, Repr

/-- Return value of the orchestrator model: the result dictionary plus
instrumentation (the final aggregate record list, the cache after the batch,
the total number of LLM calls, and the retry trace). -/
structure BatchOutput where
  result : BatchResult
  finalResults : List PageResult
  cache : Cache
  llmCalls : Nat
  retryTrace : List (Nat × List Nat)

/-- `process_document_async`: plan chunks, run them, retry failures up to
`maxRetries` attempts, finalize residual failures offline, sort by page and
aggregate. `pagesPerChunk` and `maxRetries` model the configured
`OCR_PAGES_PER_CHUNK` and `OCR_MAX_RETRIES`. -/
def process_document_async (env : Env) (pagesPerChunk maxRetries : Nat)
    (start_page end_page : Nat) (cache₀ : Cache) : BatchOutput :=
  let page_list := List.range' start_page (end_page + 1 - start_page)
  let page_chunks := chunkList page_list pagesPerChunk
  let r₀ := runChunks env 0 page_chunks cache₀
  let failed₀ := r₀.1.filter (fun r => !r.success)
  let acc := retryLoop env pagesPerChunk (List.range' 1 maxRetries)
    { results := r₀.1
      failedPages := failed₀
      cache := r₀.2.1
      llmCalls := r₀.2.2
      retryTrace := [] }
  let sorted := sortByPage (applyFallback env acc.results)
  let text_parts := buildTextParts sorted
  { result :=
      { full_text := String.intercalate "\n\n" text_parts
        text_parts := text_parts
        total_input_tokens := (sorted.map (fun r => r.input_tokens)).sum
        total_output_tokens := (sorted.map (fun r => r.output_tokens)).sum
        successful_pages := (sorted.filter (fun r => r.success)).map (fun r => r.page)
        failed_pages := (sorted.filter (fun r => !r.success)).map (fun r => (r.page, r.error))
        cached_pages := (sorted.filter (fun r => r.method == "cached")).map (fun r => r.page)
        llm_pages := (sorted.filter (fun r => r.method == "llm")).map (fun r => r.page)
        fallback_pages :=
          (sorted.filter (fun r => r.method == "pymupdf_fallback")).map (fun r => r.page)
        pages_processed := sorted.length
        retry_count := (sorted.map (fun r => r.retry_count)).sum
        tokens_saved :=
          ((sorted.filter (fun r => r.method == "cached")).map
            (fun r => r.input_tokens + r.output_tokens)).sum }
    finalResults := sorted
    cache := acc.cache
    llmCalls := acc.llmCalls
    retryTrace := acc.retryTrace }


/-- No cache entry exists for any chunk containing page `p` (with respect to
the batch's document): such a page can then never be served from the
cache. -/
def CacheClean (env : Env) (p : Nat) (cache : Cache) : Prop :=
  ∀ c : List Nat, p ∈ c → cacheLookup cache (create_cache_key env.doc c) = none

/-- The chunk `c` is settled in the given cache/aggregate pair: the cache
holds an entry under the chunk's key, and every aggregate record for a page
of the chunk is successful with exactly the text that parsing the cached
response assigns to that page. This is the state a chunk reaches once it
succeeds on any attempt (initial pass, cache hit, or retry). -/
def ChunkSettled (env : Env) (cache : Cache) (rs : List PageResult) (c : List Nat) : Prop :=
  ∃ v : CacheVal, cacheLookup cache (create_cache_key env.doc c) = some v ∧
    ∀ p ∈ c, ∀ r ∈ rs, r.page = p →
      r.text = some ((dictGet (parse_llm_response v.1 c) p).getD parseErrorMarker) ∧
      r.success = true

/-- A concrete document identity used for concrete evaluations of the
pipeline. -/
def docA : DocIdentity := ⟨"doc.pdf", 100, "1700.5"⟩

/-- An environment whose LLM returns an empty response text for every
chunk. -/
def envEmptyText : Env :=
  { doc := docA
    pageCount := 1
    llm := fun _ _ => Except.ok ⟨"", 0, 0⟩
    pymupdf4llmOut := fun _ => Except.ok "offline markdown"
    pymupdfBasicOut := fun _ => Except.ok "offline text" }

/-- An environment whose LLM raises on every call. -/
def envLlmDown : Env :=
  { doc := docA
    pageCount := 2
    llm := fun _ _ => Except.error "boom"
    pymupdf4llmOut := fun _ => Except.ok "offline markdown"
    pymupdfBasicOut := fun _ => Except.ok "offline text" }

/-- An environment whose LLM always answers with one well-formed page-marker
section per requested page. -/
def envGood : Env :=
  { doc := docA
    pageCount := 10
    llm := fun _ c =>
      Except.ok
        ⟨String.intercalate "\n" (c.map (fun p => pageHeader p ++ "\ntext" ++ natRepr p)),
          100, 50⟩
    pymupdf4llmOut := fun _ => Except.ok "offline markdown"
    pymupdfBasicOut := fun _ => Except.ok "offline text" }

/-- An environment whose LLM raises on the initial pass (attempt 0) and
answers with one well-formed page-marker section per requested page on
every retry attempt: every chunk is resolved by its first retry, never by
the offline fallback. -/
def envFlaky : Env :=
  { doc := docA
    pageCount := 4
    llm := fun a c =>
      if a = 0 then Except.error "transient overload"
      else
        Except.ok
          ⟨String.intercalate "\n" (c.map (fun p => pageHeader p ++ "\ntext" ++ natRepr p)),
            100, 50⟩
    pymupdf4llmOut := fun _ => Except.ok "offline markdown"
    pymupdfBasicOut := fun _ => Except.ok "offline text" }

/-- An environment whose LLM answers without any page markers. -/
def envNoMarkers : Env :=
  { doc := docA
    pageCount := 10
    llm := fun _ _ => Except.ok ⟨"garbage response", 7, 3⟩
    pymupdf4llmOut := fun _ => Except.ok "offline markdown"
    pymupdfBasicOut := fun _ => Except.ok "offline text" }

/-- An environment whose LLM answers with a single marker naming a page
outside any requested chunk. -/
def envWrongPage : Env :=
  { doc := docA
    pageCount := 10
    llm := fun _ _ => Except.ok ⟨"--- Page 99 ---\nstuff", 4, 2⟩
    pymupdf4llmOut := fun _ => Except.ok "offline markdown"
    pymupdfBasicOut := fun _ => Except.ok "offline text" }

/-- `OCR_CONCURRENT_REQUESTS` from `config.py`: the capacity of the
semaphore gating simultaneous chunk tasks. -/
def OCR_CONCURRENT_REQUESTS : Nat := 20

/-- `OCR_MAX_RETRIES` from `config.py`: the maximum number of retry
attempts per page. (The orchestrator theorems are stated for an arbitrary
retry bound, which subsumes this configured value.) -/
def OCR_MAX_RETRIES : Nat := 3

/-- Phase of one chunk task with respect to the semaphore: not yet
acquired, currently inside the `async with semaphore` body, or finished
(slot released). -/
inductive TaskPhase where
  | notStarted
  | holding
  | done
deriving DecidableEq, Repr

/-- State of the gate system: the semaphore capacity and the phase of every
chunk task of one batch. -/
structure GateSystem where
  limit : Nat
  tasks : List TaskPhase
deriving DecidableEq, Repr

/-- Number of tasks currently holding a semaphore slot. -/
def holdingCount (s : GateSystem) : Nat :=
  s.tasks.countP (fun t => t == TaskPhase.holding)

/-- Interleaving semantics of `asyncio.Semaphore` on the cooperative
scheduler: a pending task may acquire only while the held count is below
the capacity; a holding task may finish and release. -/
inductive GateStep : GateSystem → GateSystem → Prop where
  | acquire (s : GateSystem) (i : Nat) (hi : s.tasks.get? i = some TaskPhase.notStarted)
      (hfree : holdingCount s < s.limit) :
      GateStep s ⟨s.limit, s.tasks.set i TaskPhase.holding⟩
  | release (s : GateSystem) (i : Nat) (hi : s.tasks.get? i = some TaskPhase.holding) :
      GateStep s ⟨s.limit, s.tasks.set i TaskPhase.done⟩

/-- States reachable from an initial gate state by any interleaving of
acquisitions and releases. -/
def GateReachable (init s : GateSystem) : Prop := Relation.ReflTransGen GateStep init s

/-- All chunk tasks of one batch, tagged with their attempt number: the
initial-pass chunks plus, for each executed retry attempt, the regrouped
retry chunks. The source gates every one of these behind the single
semaphore created at the start of `process_document_async` and passed on to
`retry_failed_chunks`. -/
def batchChunkTasks (env : Env) (k maxR start e : Nat) (c₀ : Cache) :
    List (Nat × List Nat) :=
  (chunkList (List.range' start (e + 1 - start)) k).map (fun c => (0, c)) ++
    ((process_document_async env k maxR start e c₀).retryTrace.map
      (fun t => (chunkList t.2 k).map (fun c => (t.1, c)))).flatten

/-- Initial gate state of a batch: one pending task per chunk task of the
batch (initial pass and retries), gated by the one semaphore of size
`OCR_CONCURRENT_REQUESTS`. -/
def batchGateInit (env : Env) (k maxR start e : Nat) (c₀ : Cache) : GateSystem :=
  ⟨OCR_CONCURRENT_REQUESTS,
   (batchChunkTasks env k maxR start e c₀).map (fun _ => TaskPhase.notStarted)⟩

theorem natDigitsAux_stable (n : Nat) : ∀ f₁ f₂ : Nat, n < f₁ → n < f₂ →
    natDigitsAux f₁ n = natDigitsAux f₂ n := by
  induction n using Nat.strong_induction_on with
  | _ n ih =>
    intro f₁ f₂ h₁ h₂
    match f₁, f₂ with
    | g₁+1, g₂+1 =>
      by_cases hn : n < 10
      · simp [natDigitsAux, hn]
      · have hd : n / 10 < n := Nat.div_lt_self (by omega) (by omega)
        simp only [natDigitsAux, hn, if_false]
        rw [ih (n / 10) hd g₁ g₂ (by omega) (by omega)]

theorem natDigits_lt10 (n : Nat) (h : n < 10) : natDigits n = [digitChar n] := by
  simp [natDigits, natDigitsAux, h]

theorem natDigits_ge10 (n : Nat) (h : 10 ≤ n) :
    natDigits n = natDigits (n / 10) ++ [digitChar (n % 10)] := by
  have hd : n / 10 < n := Nat.div_lt_self (by omega) (by omega)
  have : natDigitsAux (n + 1) n = natDigitsAux n (n / 10) ++ [digitChar (n % 10)] := by
    simp [natDigitsAux, Nat.not_lt.mpr h]
  rw [natDigits, this, natDigitsAux_stable (n / 10) n (n / 10 + 1) (by omega) (by omega)]
  rfl

theorem digitChar_isDigit (n : Nat) : (digitChar n).isDigit = true := by
  match n with
  | 0 | 1 | 2 | 3 | 4 | 5 | 6 | 7 | 8 => decide
  | m+9 => rfl

theorem digitVal_digitChar (n : Nat) (h : n < 10) : digitVal (digitChar n) = n := by
  interval_cases n <;> decide

theorem natDigits_ne_nil (n : Nat) : natDigits n ≠ [] := by
  by_cases h : n < 10
  · rw [natDigits_lt10 n h]; simp
  · rw [natDigits_ge10 n (by omega)]; simp

theorem natDigits_isDigit (n : Nat) : ∀ c ∈ natDigits n, c.isDigit = true := by
  induction n using Nat.strong_induction_on with
  | _ n ih =>
    by_cases h : n < 10
    · rw [natDigits_lt10 n h]
      intro c hc
      rw [List.mem_singleton] at hc
      subst hc; exact digitChar_isDigit n
    · rw [natDigits_ge10 n (by omega)]
      intro c hc
      rcases List.mem_append.mp hc with h₁ | h₂
      · exact ih (n / 10) (Nat.div_lt_self (by omega) (by omega)) c h₁
      · rw [List.mem_singleton] at h₂
        subst h₂; exact digitChar_isDigit (n % 10)

theorem decode_natDigits (n : Nat) : decodeDigits (natDigits n) = n := by
  induction n using Nat.strong_induction_on with
  | _ n ih =>
    by_cases h : n < 10
    · rw [natDigits_lt10 n h]
      simp [decodeDigits, digitVal_digitChar n h]
    · rw [natDigits_ge10 n (by omega)]
      have hd : n / 10 < n := Nat.div_lt_self (by omega) (by omega)
      have hrec := ih (n / 10) hd
      simp only [decodeDigits, List.foldl_append, List.foldl_cons, List.foldl_nil] at *
      rw [hrec, digitVal_digitChar (n % 10) (Nat.mod_lt _ (by omega))]
      omega

theorem natDigits_injective : Function.Injective natDigits := by
  intro a b h
  have ha := decode_natDigits a
  rw [h, decode_natDigits] at ha
  omega

theorem digit_blocks_cancel :
    ∀ a b r s : List Char,
      (∀ c ∈ a, c.isDigit = true) → (∀ c ∈ b, c.isDigit = true) →
      headNotDigit r → headNotDigit s →
      a ++ r = b ++ s → a = b ∧ r = s := by
  intro a
  induction a with
  | nil =>
    intro b r s _ hb hr hs h
    cases b with
    | nil => exact ⟨rfl, h⟩
    | cons d bs =>
      exfalso
      simp only [List.nil_append] at h
      subst h
      have hd : d.isDigit = true := hb d (List.mem_cons_self d bs)
      simp [headNotDigit, hd] at hr
  | cons c as ih =>
    intro b r s ha hb hr hs h
    cases b with
    | nil =>
      exfalso
      simp only [List.nil_append] at h
      have hc : c.isDigit = true := ha c (List.mem_cons_self c as)
      rw [← h] at hs
      simp [headNotDigit, hc] at hs
    | cons d bs =>
      simp only [List.cons_append, List.cons.injEq] at h
      obtain ⟨hcd, htail⟩ := h
      subst hcd
      have := ih bs r s (fun x hx => ha x (List.mem_cons_of_mem c hx))
        (fun x hx => hb x (List.mem_cons_of_mem c hx)) hr hs htail
      exact ⟨by rw [this.1], this.2⟩

theorem headNotDigit_sep (rest : List Char) : headNotDigit (',' :: rest) := by
  simp [headNotDigit]

theorem listReprBody_inj : ∀ l₁ l₂ : List Nat,
    listReprBody l₁ = listReprBody l₂ → l₁ = l₂ := by
  intro l₁
  induction l₁ with
  | nil =>
    intro l₂ h
    match l₂ with
    | [] => rfl
    | [m] =>
      exfalso
      exact natDigits_ne_nil m (by simpa [listReprBody] using h.symm)
    | m :: j :: s =>
      exfalso
      simp only [listReprBody] at h
      exact natDigits_ne_nil m (List.append_eq_nil.mp h.symm).1
  | cons n rest ih =>
    intro l₂ h
    match l₂ with
    | [] =>
      exfalso
      match rest with
      | [] => exact natDigits_ne_nil n (by simpa [listReprBody] using h)
      | k :: r =>
        simp only [listReprBody] at h
        exact natDigits_ne_nil n (List.append_eq_nil.mp h).1
    | m :: r₂ =>
      match rest, r₂ with
      | [], [] =>
        simp only [listReprBody] at h
        rw [natDigits_injective h]
      | [], j :: s =>
        exfalso
        simp only [listReprBody] at h
        have := digit_blocks_cancel (natDigits n) (natDigits m) [] (',' :: ' ' :: listReprBody (j :: s))
          (natDigits_isDigit n) (natDigits_isDigit m) trivial (headNotDigit_sep _)
          (by simpa using h)
        simpa using this.2
      | k :: r, [] =>
        exfalso
        simp only [listReprBody] at h
        have := digit_blocks_cancel (natDigits n) (natDigits m) (',' :: ' ' :: listReprBody (k :: r)) []
          (natDigits_isDigit n) (natDigits_isDigit m) (headNotDigit_sep _) trivial
          (by simpa using h)
        simpa using this.2
      | k :: r, j :: s =>
        simp only [listReprBody] at h
        have := digit_blocks_cancel (natDigits n) (natDigits m)
          (',' :: ' ' :: listReprBody (k :: r)) (',' :: ' ' :: listReprBody (j :: s))
          (natDigits_isDigit n) (natDigits_isDigit m) (headNotDigit_sep _) (headNotDigit_sep _) h
        obtain ⟨h₁, h₂⟩ := this
        simp only [List.cons.injEq, true_and] at h₂
        rw [natDigits_injective h₁, ih (j :: s) h₂]

@[simp] theorem successResult_page (o : OcrOutcome) (n : Nat) (parsed : List (Nat × String))
    (p : Nat) : (successResult o n parsed p).page = p := rfl

@[simp] theorem successResult_success (o : OcrOutcome) (n : Nat) (parsed : List (Nat × String))
    (p : Nat) : (successResult o n parsed p).success = true := rfl

@[simp] theorem successResult_method (o : OcrOutcome) (n : Nat) (parsed : List (Nat × String))
    (p : Nat) : (successResult o n parsed p).method = o.method := rfl

@[simp] theorem successResult_text (o : OcrOutcome) (n : Nat) (parsed : List (Nat × String))
    (p : Nat) : (successResult o n parsed p).text = some ((dictGet parsed p).getD parseErrorMarker) := rfl

@[simp] theorem successResult_retry (o : OcrOutcome) (n : Nat) (parsed : List (Nat × String))
    (p : Nat) : (successResult o n parsed p).retry_count = 0 := rfl

@[simp] theorem failedResult_page (e : String) (p : Nat) : (failedResult e p).page = p := rfl

@[simp] theorem failedResult_success (e : String) (p : Nat) :
    (failedResult e p).success = false := rfl

@[simp] theorem failedResult_text (e : String) (p : Nat) : (failedResult e p).text = none := rfl

@[simp] theorem failedResult_error (e : String) (p : Nat) :
    (failedResult e p).error = some e := rfl

@[simp] theorem failedResult_tokens (e : String) (p : Nat) :
    (failedResult e p).input_tokens = 0 ∧ (failedResult e p).output_tokens = 0 := ⟨rfl, rfl⟩

@[simp] theorem failedResult_retry (e : String) (p : Nat) :
    (failedResult e p).retry_count = 0 := rfl

theorem cacheLookup_cachePut_self (c : Cache) (k : String) (v : CacheVal) :
    cacheLookup (cachePut c k v) k = some v := by
  induction c with
  | nil => simp [cachePut, cacheLookup]
  | cons kv rest ih =>
    by_cases h : kv.1 = k
    · simp [cachePut, cacheLookup, h]
    · simp [cachePut, cacheLookup, h, ih]

theorem cacheLookup_cachePut_ne (c : Cache) (k k₂ : String) (v : CacheVal) (h : k ≠ k₂) :
    cacheLookup (cachePut c k v) k₂ = cacheLookup c k₂ := by
  induction c with
  | nil => simp [cachePut, cacheLookup, h]
  | cons kv rest ih =>
    by_cases hk : kv.1 = k
    · simp [cachePut, cacheLookup, hk, h]
    · simp [cachePut, cacheLookup, hk, ih]

theorem pySorted_perm (l : List Nat) : (pySorted l).Perm l := List.perm_insertionSort _ l

theorem pySorted_sorted (l : List Nat) : List.Sorted (· ≤ ·) (pySorted l) :=
  List.sorted_insertionSort _ l

theorem pySorted_eq_iff_perm (l₁ l₂ : List Nat) : pySorted l₁ = pySorted l₂ ↔ l₁.Perm l₂ := by
  constructor
  · intro h
    exact (pySorted_perm l₁).symm.trans (h ▸ pySorted_perm l₂)
  · intro h
    exact List.eq_of_perm_of_sorted
      ((pySorted_perm l₁).trans (h.trans (pySorted_perm l₂).symm))
      (pySorted_sorted l₁) (pySorted_sorted l₂)

theorem string_append_cancel_left (a b c : String) (h : a ++ b = a ++ c) : b = c := by
  have hD : a.data ++ b.data = a.data ++ c.data := by
    have := congrArg String.data h
    simpa using this
  have hbc := List.append_cancel_left hD
  exact congrArg String.mk hbc

theorem listRepr_inj : ∀ l₁ l₂ : List Nat, listRepr l₁ = listRepr l₂ → l₁ = l₂ := by
  intro l₁ l₂ h
  apply listReprBody_inj
  simp only [listRepr, List.asString] at h
  have h₂ : '[' :: listReprBody l₁ ++ [']'] = '[' :: listReprBody l₂ ++ [']'] := by
    exact congrArg String.data h
  simp only [List.cons_append, List.cons.injEq, true_and] at h₂
  exact List.append_cancel_right h₂

theorem create_cache_key_eq_iff (doc : DocIdentity) (l₁ l₂ : List Nat) :
    create_cache_key doc l₁ = create_cache_key doc l₂ ↔ l₁.Perm l₂ := by
  unfold create_cache_key compute_content_hash
  constructor
  · intro h
    have h₁ := string_append_cancel_left _ _ _ h
    have h₆ := listRepr_inj _ _ h₁
    exact (pySorted_eq_iff_perm l₁ l₂).mp h₆
  · intro h
    rw [(pySorted_eq_iff_perm l₁ l₂).mpr h]

theorem chunkListAux_flatten (k : Nat) (hk : 1 ≤ k) :
    ∀ fuel l, List.length l ≤ fuel → (chunkListAux fuel l k).flatten = l := by
  intro fuel
  induction fuel with
  | zero =>
    intro l h
    have : l = [] := List.length_eq_zero.mp (by omega)
    subst this
    rfl
  | succ f ih =>
    intro l h
    match l with
    | [] => rfl
    | x :: xs =>
      simp only [chunkListAux, List.flatten_cons]
      rw [ih ((x :: xs).drop k) (by
        simp only [List.length_drop, List.length_cons] at h ⊢
        omega)]
      exact List.take_append_drop k (x :: xs)

theorem chunkList_flatten (l : List Nat) (k : Nat) (hk : 1 ≤ k) :
    (chunkList l k).flatten = l :=
  chunkListAux_flatten k hk l.length l (Nat.le_refl _)

theorem chunkListAux_ne_nil (k : Nat) (hk : 1 ≤ k) :
    ∀ fuel l, ∀ c ∈ chunkListAux fuel l k, c ≠ [] := by
  intro fuel
  induction fuel with
  | zero => intro l c hc; simp [chunkListAux] at hc
  | succ f ih =>
    intro l c hc
    match l with
    | [] => simp [chunkListAux] at hc
    | x :: xs =>
      simp only [chunkListAux, List.mem_cons] at hc
      rcases hc with h | h
      · subst h
        match k with
        | k+1 => simp [List.take]
      · exact ih _ c h

theorem chunkList_ne_nil (l : List Nat) (k : Nat) (hk : 1 ≤ k) :
    ∀ c ∈ chunkList l k, c ≠ [] :=
  chunkListAux_ne_nil k hk l.length l

theorem chunkList_mem_subset (l : List Nat) (k : Nat) (hk : 1 ≤ k)
    (c : List Nat) (hc : c ∈ chunkList l k) : ∀ p ∈ c, p ∈ l := by
  intro p hp
  rw [← chunkList_flatten l k hk]
  exact List.mem_flatten.mpr ⟨c, hc, hp⟩

theorem map_page_of_pointwise (f : Nat → PageResult) (hf : ∀ p, (f p).page = p)
    (l : List Nat) : (l.map f).map (fun r => r.page) = l := by
  rw [List.map_map]
  have hfun : ((fun r : PageResult => r.page) ∘ f) = fun p => p := funext fun p => hf p
  rw [hfun]
  exact List.map_id' l

theorem process_page_chunk_pages (env : Env) (attempt : Nat) (cache : Cache)
    (chunk : List Nat) :
    ((process_page_chunk env attempt cache chunk).1).map (fun r => r.page) = chunk := by
  unfold process_page_chunk
  rcases h : runChunkOcr env attempt cache chunk with ⟨exc, c₂, n⟩
  cases exc with
  | error e => exact map_page_of_pointwise _ (fun p => rfl) chunk
  | ok o => exact map_page_of_pointwise _ (fun p => rfl) chunk

theorem process_page_chunk_of_error (env : Env) (attempt : Nat) (cache : Cache)
    (chunk : List Nat) (e : String) (c₂ : Cache) (n : Nat)
    (h : runChunkOcr env attempt cache chunk = (Except.error e, c₂, n)) :
    process_page_chunk env attempt cache chunk = (chunk.map (failedResult e), c₂, n) := by
  unfold process_page_chunk
  rw [h]

theorem process_page_chunk_of_ok (env : Env) (attempt : Nat) (cache : Cache)
    (chunk : List Nat) (o : OcrOutcome) (c₂ : Cache) (n : Nat)
    (h : runChunkOcr env attempt cache chunk = (Except.ok o, c₂, n)) :
    process_page_chunk env attempt cache chunk =
      (chunk.map (successResult o chunk.length (parse_llm_response o.text chunk)), c₂, n) := by
  unfold process_page_chunk
  rw [h]

theorem runChunks_pages (env : Env) (attempt : Nat) :
    ∀ (CS : List (List Nat)) (cache : Cache),
      ((runChunks env attempt CS cache).1).map (fun r => r.page) = CS.flatten := by
  intro CS
  induction CS with
  | nil => intro cache; rfl
  | cons c rest ih =>
    intro cache
    simp only [runChunks, List.flatten_cons, List.map_append, ih]
    rw [process_page_chunk_pages]

theorem runChunks_mem (env : Env) (attempt : Nat) (CS : List (List Nat)) (cache : Cache) :
    ∀ r ∈ (runChunks env attempt CS cache).1, r.page ∈ CS.flatten := by
  intro r hr
  rw [← runChunks_pages env attempt CS cache]
  exact List.mem_map_of_mem _ hr

theorem replaceByPage_map_page (l : List PageResult) (r : PageResult) :
    (replaceByPage l r).map (fun x => x.page) = l.map (fun x => x.page) := by
  induction l with
  | nil => rfl
  | cons x xs ih =>
    by_cases h : x.page = r.page
    · simp [replaceByPage, h]
    · simp [replaceByPage, h, ih]

theorem replaceByPage_mem (l : List PageResult) (r : PageResult) :
    ∀ x ∈ replaceByPage l r, x = r ∨ x ∈ l := by
  induction l with
  | nil => intro x hx; simp [replaceByPage] at hx
  | cons y ys ih =>
    intro x hx
    by_cases h : y.page = r.page
    · simp only [replaceByPage, h, if_pos rfl] at hx
      rcases List.mem_cons.mp hx with h₁ | h₁
      · exact Or.inl h₁
      · exact Or.inr (List.mem_cons_of_mem y h₁)
    · simp only [replaceByPage, h, if_neg h] at hx
      rcases List.mem_cons.mp hx with h₁ | h₁
      · exact Or.inr (h₁ ▸ List.mem_cons_self y ys)
      · rcases ih x h₁ with h₂ | h₂
        · exact Or.inl h₂
        · exact Or.inr (List.mem_cons_of_mem y h₂)

theorem mergeRetry_general (rr : List PageResult) :
    ∀ (all sf : List PageResult),
      rr.foldl mergeStep (all, sf) =
        ((rr.filter (fun r => r.success)).foldl replaceByPage all,
          sf ++ rr.filter (fun r => !r.success)) := by
  induction rr with
  | nil => intro all sf; simp
  | cons r rest ih =>
    intro all sf
    simp only [List.foldl_cons]
    by_cases h : r.success
    · rw [show mergeStep (all, sf) r = (replaceByPage all r, sf) by simp [mergeStep, h]]
      rw [ih, List.filter_cons_of_pos (by simp [h]), List.filter_cons_of_neg (by simp [h])]
      simp
    · rw [show mergeStep (all, sf) r = (all, sf ++ [r]) by simp [mergeStep, h]]
      rw [ih, List.filter_cons_of_neg (by simp [h]), List.filter_cons_of_pos (by simp [h])]
      simp

theorem mergeRetryResults_still_failed (all : List PageResult) (rr : List PageResult) :
    (mergeRetryResults all rr).2 = rr.filter (fun r => !r.success) := by
  unfold mergeRetryResults
  rw [mergeRetry_general]
  simp

theorem mergeRetryResults_aggregate (all : List PageResult) (rr : List PageResult) :
    (mergeRetryResults all rr).1 =
      (rr.filter (fun r => r.success)).foldl replaceByPage all := by
  unfold mergeRetryResults
  rw [mergeRetry_general]

theorem foldl_replaceByPage_map_page (ss : List PageResult) :
    ∀ all : List PageResult,
      (ss.foldl replaceByPage all).map (fun x => x.page) = all.map (fun x => x.page) := by
  induction ss with
  | nil => intro all; rfl
  | cons s rest ih =>
    intro all
    simp only [List.foldl_cons]
    rw [ih, replaceByPage_map_page]

theorem mergeRetryResults_map_page (all : List PageResult) (rr : List PageResult) :
    (mergeRetryResults all rr).1.map (fun x => x.page) = all.map (fun x => x.page) := by
  rw [mergeRetryResults_aggregate, foldl_replaceByPage_map_page]

theorem retryLoop_map_page (env : Env) (k : Nat) :
    ∀ (attempts : List Nat) (acc : BatchAcc),
      ((retryLoop env k attempts acc).results).map (fun x => x.page) =
        acc.results.map (fun x => x.page) := by
  intro attempts
  induction attempts with
  | nil => intro acc; rfl
  | cons a rest ih =>
    intro acc
    unfold retryLoop
    by_cases h : acc.failedPages.isEmpty
    · simp [h]
    · simp only [h, Bool.false_eq_true, if_neg, if_false]
      rw [ih]
      simp only []
      rw [mergeRetryResults_map_page]

theorem applyFallback_map_page (env : Env) (rs : List PageResult) :
    (applyFallback env rs).map (fun x => x.page) = rs.map (fun x => x.page) := by
  unfold applyFallback
  rw [List.map_map]
  apply List.map_congr_left
  intro r _
  by_cases h : r.success <;> simp [h]


/-- Claim C6, counterexample: calling the page-subset extractor on a 2-page
document with page list `[1, 5]` — which contains the out-of-range page 5 —
does NOT fail: the out-of-range page is silently dropped and a subset
holding only page 1 is produced. -/
theorem subset_mixed_range_succeeds_cex :
    (¬(5 ≤ 2)) ∧ create_pdf_subset_bytes 2 [1, 5] = Except.ok [0] := by
  constructor
  · decide
  · rfl

/-- Claim C6, amended: the page-subset extractor fails with the out-of-range
error if and only if every requested page number lies outside
`[1, pageCount]`; when at least one page is in range, out-of-range pages are
silently dropped and the call succeeds on the remaining ones. -/
theorem subset_error_iff_all_out_of_range (pageCount : Nat) (page_nums : List Nat) :
    (∃ e, create_pdf_subset_bytes pageCount page_nums = Except.error e) ↔
      ∀ p ∈ page_nums, p < 1 ∨ pageCount < p := by
  constructor
  · rintro ⟨e, he⟩ p hp
    simp only [create_pdf_subset_bytes] at he
    by_cases h : page_nums.filterMap
        (fun p => if 1 ≤ p ∧ p ≤ pageCount then some (p - 1) else none) = []
    · rw [List.filterMap_eq_nil_iff] at h
      have hpn := h p hp
      by_contra hc
      push_neg at hc
      rw [if_pos ⟨by omega, by omega⟩] at hpn
      exact Option.noConfusion hpn
    · rw [if_neg h] at he
      exact Except.noConfusion he
  · intro hall
    simp only [create_pdf_subset_bytes]
    have h : page_nums.filterMap
        (fun p => if 1 ≤ p ∧ p ≤ pageCount then some (p - 1) else none) = [] := by
      rw [List.filterMap_eq_nil_iff]
      intro p hp
      rcases hall p hp with h₁ | h₁
      · rw [if_neg (by omega)]
      · rw [if_neg (by omega)]
    rw [if_pos h]
    exact ⟨_, rfl⟩

/-- Witness for the amended C6 theorem: on a 2-page document, the all-out-of-
range page list `[5, 7]` is rejected with an error. -/
theorem subset_error_iff_all_out_of_range_witness :
    (∀ p ∈ [5, 7], p < 1 ∨ 2 < p) ∧
      ∃ e, create_pdf_subset_bytes 2 [5, 7] = Except.error e :=
  ⟨by decide, (subset_error_iff_all_out_of_range 2 [5, 7]).mpr (by decide)⟩

/-- Claim C8: for a fixed document state, the cache key is a pure function
of the set of page numbers — two page lists give the same key exactly when
they are permutations of each other, so page order is irrelevant and
changing any page number changes the key. (The content hash itself is
modelled from the spec as an injective encoding.) -/
theorem cache_key_pure_and_sensitive (doc : DocIdentity) (l₁ l₂ : List Nat) :
    create_cache_key doc l₁ = create_cache_key doc l₂ ↔ l₁.Perm l₂ :=
  create_cache_key_eq_iff doc l₁ l₂

/-- Witness for C8 at concrete inputs: reordering pages keeps the key;
replacing page 2 by page 4 changes it. -/
theorem cache_key_pure_and_sensitive_witness :
    create_cache_key docA [3, 1, 2] = create_cache_key docA [1, 2, 3] ∧
      create_cache_key docA [1, 2] ≠ create_cache_key docA [1, 4] := by
  constructor
  · exact (cache_key_pure_and_sensitive docA [3, 1, 2] [1, 2, 3]).mpr (by decide)
  · intro h
    have hperm := (cache_key_pure_and_sensitive docA [1, 2] [1, 4]).mp h
    exact absurd hperm (by decide)


theorem foldl_dict_no_key (k : Nat) :
    ∀ (l : List (Nat × String)) (acc : Option String),
      (∀ kv ∈ l, kv.1 ≠ k) →
      l.foldl (fun acc kv => if kv.1 = k then some kv.2 else acc) acc = acc := by
  intro l
  induction l with
  | nil => intro acc _; rfl
  | cons kv rest ih =>
    intro acc h
    simp only [List.foldl_cons]
    rw [if_neg (h kv (List.mem_cons_self kv rest))]
    exact ih acc (fun x hx => h x (List.mem_cons_of_mem kv hx))

theorem dictGet_of_no_key (l : List (Nat × String)) (k : Nat)
    (h : ∀ kv ∈ l, kv.1 ≠ k) : dictGet l k = none :=
  foldl_dict_no_key k l none h

theorem dictGet_head_unique (k : Nat) (v : String) (l : List (Nat × String))
    (h : ∀ kv ∈ l, kv.1 ≠ k) : dictGet ((k, v) :: l) k = some v := by
  unfold dictGet
  simp only [List.foldl_cons, if_pos rfl]
  exact foldl_dict_no_key k l (some v) h

theorem foldl_dict_const_mem (k : Nat) (m : String) :
    ∀ l : List Nat, k ∈ l → ∀ acc : Option String,
      (l.map (fun y => (y, m))).foldl
        (fun acc kv => if kv.1 = k then some kv.2 else acc) acc = some m := by
  intro l
  induction l with
  | nil => intro h; simp at h
  | cons y ys ih =>
    intro hk acc
    simp only [List.map_cons, List.foldl_cons]
    by_cases hmem : k ∈ ys
    · exact ih hmem _
    · have hky : y = k := by
        rcases List.mem_cons.mp hk with h | h
        · exact h.symm
        · exact absurd h hmem
      rw [if_pos (by simpa using hky)]
      apply foldl_dict_no_key
      intro kv hkv
      rcases List.mem_map.mp hkv with ⟨z, hz, rfl⟩
      intro hzk
      exact hmem (hzk ▸ hz)

theorem parse_llm_response_mismatch (t : String) (p q : Nat) (rest : List Nat)
    (hmm : (scanMarkers t.data).2.length ≠
      (((scanMarkers t.data).1.map (fun part => pyStrip part.asString)).filter
        (fun x => x ≠ "")).length) :
    parse_llm_response t (p :: q :: rest) =
      (p, pyStrip t) :: (q :: rest).map (fun x => (x, parseFailedMarker)) := by
  simp only [parse_llm_response]
  rw [if_neg hmm]

/-- Claim C4: for every chunk, the chunk processor converts any exception of
its fallible pipeline (subset extraction, cache check, LLM call) into one
returned record per page of the chunk — in chunk order — each with
`success=false`, no text, zero token counts and the exception message as the
error; no exception reaches the caller. -/
theorem chunk_never_propagates (env : Env) (attempt : Nat) (cache : Cache)
    (chunk : List Nat) (e : String) (c₂ : Cache) (n : Nat)
    (herr : runChunkOcr env attempt cache chunk = (Except.error e, c₂, n)) :
    ((process_page_chunk env attempt cache chunk).1).map (fun r => r.page) = chunk ∧
      ∀ r ∈ (process_page_chunk env attempt cache chunk).1,
        r.success = false ∧ r.text = none ∧ r.input_tokens = 0 ∧ r.output_tokens = 0 ∧
          r.error = some e := by
  rw [process_page_chunk_of_error env attempt cache chunk e c₂ n herr]
  constructor
  · exact map_page_of_pointwise _ (fun p => rfl) chunk
  · intro r hr
    rcases List.mem_map.mp hr with ⟨p, _, rfl⟩
    exact ⟨rfl, rfl, rfl, rfl, rfl⟩

/-- Witness for C4: with an LLM that raises, the chunk `[1, 2]` comes back as
two failed records carrying the message, not as an exception. -/
theorem chunk_never_propagates_witness :
    ((process_page_chunk envLlmDown 0 [] [1, 2]).1).map (fun r => r.page) = [1, 2] ∧
      ∀ r ∈ (process_page_chunk envLlmDown 0 [] [1, 2]).1,
        r.success = false ∧ r.text = none ∧ r.input_tokens = 0 ∧ r.output_tokens = 0 ∧
          r.error = some "boom" :=
  chunk_never_propagates envLlmDown 0 [] [1, 2] "boom" [] 1 (by rfl)

/-- Claim C5: when a multi-page chunk's LLM call succeeds but the recovered
header count differs from the recovered segment count, the whole trimmed
response is assigned to the first page of the chunk, every other page gets
the literal parsing-failed marker, and all of the chunk's records still
report `success=true`. -/
theorem parse_mismatch_first_page_fallback (env : Env) (attempt : Nat) (cache : Cache)
    (p q : Nat) (rest : List Nat) (o : OcrOutcome) (c₂ : Cache) (n : Nat)
    (hok : runChunkOcr env attempt cache (p :: q :: rest) = (Except.ok o, c₂, n))
    (hnodup : (p :: q :: rest).Nodup)
    (hmm : (scanMarkers o.text.data).2.length ≠
      (((scanMarkers o.text.data).1.map (fun part => pyStrip part.asString)).filter
        (fun x => x ≠ "")).length) :
    (∀ r ∈ (process_page_chunk env attempt cache (p :: q :: rest)).1, r.success = true) ∧
      (∃ r ∈ (process_page_chunk env attempt cache (p :: q :: rest)).1,
        r.page = p ∧ r.text = some (pyStrip o.text)) ∧
      ∀ r ∈ (process_page_chunk env attempt cache (p :: q :: rest)).1,
        r.page ≠ p → r.text = some parseFailedMarker := by
  rw [process_page_chunk_of_ok env attempt cache (p :: q :: rest) o c₂ n hok]
  rw [parse_llm_response_mismatch o.text p q rest hmm]
  have hp_not_tail : p ∉ q :: rest := (List.nodup_cons.mp hnodup).1
  refine ⟨?_, ?_, ?_⟩
  · intro r hr
    rcases List.mem_map.mp hr with ⟨x, _, rfl⟩
    rfl
  · refine ⟨successResult o (p :: q :: rest).length
      ((p, pyStrip o.text) :: (q :: rest).map (fun x => (x, parseFailedMarker))) p,
      List.mem_map_of_mem _ (List.mem_cons_self p (q :: rest)), rfl, ?_⟩
    rw [successResult_text]
    rw [dictGet_head_unique p (pyStrip o.text) _ ?keys]
    case keys =>
      intro kv hkv
      rcases List.mem_map.mp hkv with ⟨z, hz, rfl⟩
      intro hzp
      exact hp_not_tail (hzp ▸ hz)
    rfl
  · intro r hr hne
    rcases List.mem_map.mp hr with ⟨x, hx, rfl⟩
    rw [successResult_page] at hne
    have hx_tail : x ∈ q :: rest := by
      rcases List.mem_cons.mp hx with h | h
      · exact absurd h hne
      · exact h
    rw [successResult_text]
    have hd : dictGet ((p, pyStrip o.text) :: (q :: rest).map (fun x => (x, parseFailedMarker))) x
        = some parseFailedMarker := by
      unfold dictGet
      simp only [List.foldl_cons]
      rw [if_neg (by intro h; exact hne h.symm)]
      exact foldl_dict_const_mem x parseFailedMarker (q :: rest) hx_tail none
    rw [hd]
    rfl

/-- Witness for C5: an unmarked two-page response is assigned wholesale to
page 1, page 2 gets the parsing-failed marker, both successful. -/
theorem parse_mismatch_first_page_fallback_witness :
    (∀ r ∈ (process_page_chunk envNoMarkers 0 [] [1, 2]).1, r.success = true) ∧
      (∃ r ∈ (process_page_chunk envNoMarkers 0 [] [1, 2]).1,
        r.page = 1 ∧ r.text = some (pyStrip "garbage response")) ∧
      ∀ r ∈ (process_page_chunk envNoMarkers 0 [] [1, 2]).1,
        r.page ≠ 1 → r.text = some parseFailedMarker :=
  parse_mismatch_first_page_fallback envNoMarkers 0 [] 1 2 []
    ⟨"garbage response", 7, 3, "llm"⟩
    [(create_cache_key docA [1, 2], ("garbage response", 7, 3))] 1
    (by rfl) (by decide) (by decide)

/-- Claim C10: when a multi-page chunk's response parses cleanly (header
count equals segment count) but a requested page is named by no header, that
page receives the literal parsing-error placeholder while still being
reported `success=true` — it is neither failed nor retried. -/
theorem parse_match_missing_page_placeholder (env : Env) (attempt : Nat) (cache : Cache)
    (p q m : Nat) (rest : List Nat) (o : OcrOutcome) (c₂ : Cache) (n : Nat)
    (hok : runChunkOcr env attempt cache (p :: q :: rest) = (Except.ok o, c₂, n))
    (heq : (scanMarkers o.text.data).2.length =
      (((scanMarkers o.text.data).1.map (fun part => pyStrip part.asString)).filter
        (fun x => x ≠ "")).length)
    (hm : m ∈ p :: q :: rest)
    (hnh : m ∉ (scanMarkers o.text.data).2) :
    (∀ r ∈ (process_page_chunk env attempt cache (p :: q :: rest)).1, r.success = true) ∧
      ∀ r ∈ (process_page_chunk env attempt cache (p :: q :: rest)).1,
        r.page = m → r.text = some parseErrorMarker := by
  rw [process_page_chunk_of_ok env attempt cache (p :: q :: rest) o c₂ n hok]
  have hparse : parse_llm_response o.text (p :: q :: rest) =
      ((scanMarkers o.text.data).2.zip
        (((scanMarkers o.text.data).1.map (fun part => pyStrip part.asString)).filter
          (fun x => x ≠ ""))).filter (fun hc => (p :: q :: rest).contains hc.1) := by
    simp only [parse_llm_response]
    rw [if_pos heq]
  rw [hparse]
  refine ⟨?_, ?_⟩
  · intro r hr
    rcases List.mem_map.mp hr with ⟨x, _, rfl⟩
    rfl
  · intro r hr hpage
    rcases List.mem_map.mp hr with ⟨x, hx, rfl⟩
    rw [successResult_page] at hpage
    subst hpage
    rw [successResult_text]
    have hd : dictGet (((scanMarkers o.text.data).2.zip
        (((scanMarkers o.text.data).1.map (fun part => pyStrip part.asString)).filter
          (fun t => t ≠ ""))).filter (fun hc => (p :: q :: rest).contains hc.1)) x = none := by
      apply dictGet_of_no_key
      intro kv hkv
      have hz := List.mem_of_mem_filter hkv
      have := List.of_mem_zip hz
      intro hk
      exact hnh (hk ▸ this.1)
    rw [hd]
    rfl

/-- Witness for C10: a clean response naming only page 99 leaves requested
page 1 with the parsing-error placeholder, still successful. -/
theorem parse_match_missing_page_placeholder_witness :
    (∀ r ∈ (process_page_chunk envWrongPage 0 [] [1, 2]).1, r.success = true) ∧
      ∀ r ∈ (process_page_chunk envWrongPage 0 [] [1, 2]).1,
        r.page = 1 → r.text = some parseErrorMarker :=
  parse_match_missing_page_placeholder envWrongPage 0 [] 1 2 1 []
    ⟨"--- Page 99 ---\nstuff", 4, 2, "llm"⟩
    [(create_cache_key docA [1, 2], ("--- Page 99 ---\nstuff", 4, 2))] 1
    (by rfl) (by decide) (by decide) (by decide)


theorem insertionSort_eq_self {α : Type} (r : α → α → Prop) [DecidableRel r] :
    ∀ l : List α, List.Pairwise r l → List.insertionSort r l = l
  | [], _ => rfl
  | a :: l, h => by
    obtain ⟨hhead, htail⟩ := List.pairwise_cons.mp h
    simp only [List.insertionSort]
    rw [insertionSort_eq_self r l htail]
    cases l with
    | nil => rfl
    | cons b t =>
      simp only [List.orderedInsert]
      rw [if_pos (hhead b (List.mem_cons_self b t))]

theorem sortByPage_eq_self (rs : List PageResult)
    (h : List.Pairwise (fun a b : PageResult => a.page ≤ b.page) rs) : sortByPage rs = rs :=
  insertionSort_eq_self _ rs h

theorem pairwise_of_map_range' (rs : List PageResult) (s n : Nat)
    (h : rs.map (fun r => r.page) = List.range' s n) :
    List.Pairwise (fun a b : PageResult => a.page ≤ b.page) rs := by
  have hp : List.Pairwise (· ≤ ·) (rs.map (fun r => r.page)) := by
    rw [h]
    exact (List.pairwise_lt_range' ..).imp Nat.le_of_lt
  exact List.pairwise_map.mp hp

theorem batch_finalResults_def (env : Env) (k maxR start e : Nat) (c₀ : Cache) :
    (process_document_async env k maxR start e c₀).finalResults =
      sortByPage (applyFallback env
        (retryLoop env k (List.range' 1 maxR)
          { results := (runChunks env 0 (chunkList (List.range' start (e + 1 - start)) k) c₀).1
            failedPages :=
              ((runChunks env 0 (chunkList (List.range' start (e + 1 - start)) k) c₀).1).filter
                (fun r => !r.success)
            cache := (runChunks env 0 (chunkList (List.range' start (e + 1 - start)) k) c₀).2.1
            llmCalls := (runChunks env 0 (chunkList (List.range' start (e + 1 - start)) k) c₀).2.2
            retryTrace := [] }).results) := rfl

theorem batch_text_parts_def (env : Env) (k maxR start e : Nat) (c₀ : Cache) :
    (process_document_async env k maxR start e c₀).result.text_parts =
      buildTextParts ((process_document_async env k maxR start e c₀).finalResults) := rfl

theorem batch_full_text_def (env : Env) (k maxR start e : Nat) (c₀ : Cache) :
    (process_document_async env k maxR start e c₀).result.full_text =
      String.intercalate "\n\n"
        ((process_document_async env k maxR start e c₀).result.text_parts) := rfl

theorem batch_retryTrace_def (env : Env) (k maxR start e : Nat) (c₀ : Cache) :
    (process_document_async env k maxR start e c₀).retryTrace =
      (retryLoop env k (List.range' 1 maxR)
        { results := (runChunks env 0 (chunkList (List.range' start (e + 1 - start)) k) c₀).1
          failedPages :=
            ((runChunks env 0 (chunkList (List.range' start (e + 1 - start)) k) c₀).1).filter
              (fun r => !r.success)
          cache := (runChunks env 0 (chunkList (List.range' start (e + 1 - start)) k) c₀).2.1
          llmCalls := (runChunks env 0 (chunkList (List.range' start (e + 1 - start)) k) c₀).2.2
          retryTrace := [] }).retryTrace := rfl

theorem batch_llmCalls_def (env : Env) (k maxR start e : Nat) (c₀ : Cache) :
    (process_document_async env k maxR start e c₀).llmCalls =
      (retryLoop env k (List.range' 1 maxR)
        { results := (runChunks env 0 (chunkList (List.range' start (e + 1 - start)) k) c₀).1
          failedPages :=
            ((runChunks env 0 (chunkList (List.range' start (e + 1 - start)) k) c₀).1).filter
              (fun r => !r.success)
          cache := (runChunks env 0 (chunkList (List.range' start (e + 1 - start)) k) c₀).2.1
          llmCalls := (runChunks env 0 (chunkList (List.range' start (e + 1 - start)) k) c₀).2.2
          retryTrace := [] }).llmCalls := rfl

theorem batch_cache_def (env : Env) (k maxR start e : Nat) (c₀ : Cache) :
    (process_document_async env k maxR start e c₀).cache =
      (retryLoop env k (List.range' 1 maxR)
        { results := (runChunks env 0 (chunkList (List.range' start (e + 1 - start)) k) c₀).1
          failedPages :=
            ((runChunks env 0 (chunkList (List.range' start (e + 1 - start)) k) c₀).1).filter
              (fun r => !r.success)
          cache := (runChunks env 0 (chunkList (List.range' start (e + 1 - start)) k) c₀).2.1
          llmCalls := (runChunks env 0 (chunkList (List.range' start (e + 1 - start)) k) c₀).2.2
          retryTrace := [] }).cache := rfl

theorem batch_cached_pages_def (env : Env) (k maxR start e : Nat) (c₀ : Cache) :
    (process_document_async env k maxR start e c₀).result.cached_pages =
      (((process_document_async env k maxR start e c₀).finalResults).filter
        (fun r => r.method == "cached")).map (fun r => r.page) := rfl

theorem batch_llm_pages_def (env : Env) (k maxR start e : Nat) (c₀ : Cache) :
    (process_document_async env k maxR start e c₀).result.llm_pages =
      (((process_document_async env k maxR start e c₀).finalResults).filter
        (fun r => r.method == "llm")).map (fun r => r.page) := rfl

theorem batch_fallback_pages_def (env : Env) (k maxR start e : Nat) (c₀ : Cache) :
    (process_document_async env k maxR start e c₀).result.fallback_pages =
      (((process_document_async env k maxR start e c₀).finalResults).filter
        (fun r => r.method == "pymupdf_fallback")).map (fun r => r.page) := rfl

theorem batch_finalResults_pages (env : Env) (k maxR start e : Nat) (c₀ : Cache)
    (hk : 1 ≤ k) :
    (process_document_async env k maxR start e c₀).finalResults.map (fun r => r.page)
      = List.range' start (e + 1 - start) := by
  rw [batch_finalResults_def]
  have hX : (applyFallback env
      (retryLoop env k (List.range' 1 maxR)
        { results := (runChunks env 0 (chunkList (List.range' start (e + 1 - start)) k) c₀).1
          failedPages :=
            ((runChunks env 0 (chunkList (List.range' start (e + 1 - start)) k) c₀).1).filter
              (fun r => !r.success)
          cache := (runChunks env 0 (chunkList (List.range' start (e + 1 - start)) k) c₀).2.1
          llmCalls := (runChunks env 0 (chunkList (List.range' start (e + 1 - start)) k) c₀).2.2
          retryTrace := [] }).results).map (fun r => r.page)
      = List.range' start (e + 1 - start) := by
    rw [applyFallback_map_page, retryLoop_map_page]
    show ((runChunks env 0 (chunkList (List.range' start (e + 1 - start)) k) c₀).1).map
        (fun r => r.page) = _
    rw [runChunks_pages env 0 _ c₀, chunkList_flatten _ k hk]
  rw [sortByPage_eq_self _ (pairwise_of_map_range' _ start (e + 1 - start) hX), hX]

theorem buildTextParts_truthy : ∀ rs : List PageResult,
    (∀ r ∈ rs, truthy r.text = true) →
    buildTextParts rs = List.zipWith (fun p t => pageHeader p ++ "\n" ++ t)
      (rs.map (fun r => r.page)) (rs.map (fun r => r.text.getD "")) := by
  intro rs
  induction rs with
  | nil => intro _; rfl
  | cons r rest ih =>
    intro h
    have hr := h r (List.mem_cons_self r rest)
    rcases ht : r.text with _ | t
    · rw [ht] at hr; exact absurd hr (by simp [truthy])
    · rw [ht] at hr
      have hne : ¬(t = "") := by
        intro he
        subst he
        simp [truthy] at hr
      simp only [buildTextParts, List.filterMap_cons, ht, hne, if_neg hne, List.map_cons,
        List.zipWith_cons_cons, Option.getD_some]
      exact congrArg _ (ih (fun x hx => h x (List.mem_cons_of_mem r hx)))

/-- Claim C1, amended: for a valid page request, whenever every final page
record carries truthy text (non-null, non-empty), the aggregate's text parts
consist of exactly one `--- Page N ---`-headed segment per requested page,
in ascending page order. (Without the truthiness proviso the claim fails:
a page whose final text is empty is silently omitted, see the
counterexample.) -/
theorem batch_one_segment_per_page (env : Env) (k maxR start e : Nat) (c₀ : Cache)
    (hk : 1 ≤ k) (h1 : 1 ≤ start) (hse : start ≤ e) (hpc : e ≤ env.pageCount)
    (htruthy : ∀ r ∈ (process_document_async env k maxR start e c₀).finalResults,
      truthy r.text = true) :
    ∃ texts : List String,
      texts.length = e + 1 - start ∧
      (process_document_async env k maxR start e c₀).result.text_parts =
        List.zipWith (fun p t => pageHeader p ++ "\n" ++ t)
          (List.range' start (e + 1 - start)) texts := by
  refine ⟨(process_document_async env k maxR start e c₀).finalResults.map
    (fun r => r.text.getD ""), ?_, ?_⟩
  · have hlen := congrArg List.length (batch_finalResults_pages env k maxR start e c₀ hk)
    simpa using hlen
  · rw [batch_text_parts_def, buildTextParts_truthy _ htruthy,
      batch_finalResults_pages env k maxR start e c₀ hk]

/-- Witness for the amended C1 theorem: five pages in chunks of two with a
well-behaved LLM yield exactly one headed segment per page in order. -/
theorem batch_one_segment_per_page_witness :
    ∃ texts : List String,
      texts.length = 5 + 1 - 1 ∧
      (process_document_async envGood 2 3 1 5 []).result.text_parts =
        List.zipWith (fun p t => pageHeader p ++ "\n" ++ t)
          (List.range' 1 (5 + 1 - 1)) texts :=
  batch_one_segment_per_page envGood 2 3 1 5 [] (by decide) (by decide) (by decide)
    (by decide) (by decide)

/-- Claim C1, counterexample: a valid one-page request whose LLM answers the
empty string produces NO `--- Page 1 ---` segment at all — the batch
completes with page 1 successful but the text parts empty — contradicting
"exactly one segment for each requested page". -/
theorem batch_empty_text_drops_page_cex :
    (process_document_async envEmptyText 1 3 1 1 []).result.text_parts = [] ∧
      (process_document_async envEmptyText 1 3 1 1 []).result.full_text = "" ∧
      (process_document_async envEmptyText 1 3 1 1 []).result.successful_pages = [1] := by
  refine ⟨?_, ?_, ?_⟩ <;> rfl


/-- Claim C7, counterexample: with an always-raising LLM, one page and one
retry attempt, the retry attempt resubmits page 1 and produces a failed
record tagged retry_count = 1 (third conjunct), yet the running aggregate
still holds the initial-pass record with retry_count = 0, which is what the
offline fallback later finalizes (second conjunct) — the failed retry record
never replaced the earlier one. -/
theorem failed_retry_does_not_replace_cex :
    (process_document_async envLlmDown 1 1 1 1 []).retryTrace = [(1, [1])] ∧
      (process_document_async envLlmDown 1 1 1 1 []).finalResults.map
        (fun r => (r.page, r.retry_count, r.method)) = [(1, 0, "pymupdf_fallback")] ∧
      (retry_failed_chunks envLlmDown 1 [failedResult "boom" 1] 1 []).1.map
        (fun r => (r.page, r.retry_count, r.success)) = [(1, 1, false)] := by
  refine ⟨?_, ?_, ?_⟩ <;> rfl

/-- Claim C7, amended: every record produced by a retry attempt — success or
failure — is tagged with retryCount equal to the attempt number; but only
successful retry records replace the earlier aggregate entry for their page.
Failed retry records leave the running aggregate untouched (the earlier
entry keeps its earlier retryCount) and are only collected into the
still-failed set. -/
theorem retry_tagging_and_selective_replacement (env : Env) (k : Nat)
    (failedPages : List PageResult) (attempt : Nat) (cache : Cache)
    (allResults rr : List PageResult) :
    (∀ r ∈ (retry_failed_chunks env k failedPages attempt cache).1,
      r.retry_count = attempt) ∧
      (mergeRetryResults allResults rr).1 =
        (rr.filter (fun r => r.success)).foldl replaceByPage allResults ∧
      (mergeRetryResults allResults rr).2 = rr.filter (fun r => !r.success) := by
  refine ⟨?_, mergeRetryResults_aggregate allResults rr,
    mergeRetryResults_still_failed allResults rr⟩
  intro r hr
  unfold retry_failed_chunks at hr
  simp only [] at hr
  rcases List.mem_map.mp hr with ⟨x, _, rfl⟩
  rfl

/-- Witness for the amended C7 theorem at concrete inputs: the failed retry
record is tagged with the attempt number, lands in the still-failed set, and
the aggregate is returned unchanged. -/
theorem retry_tagging_and_selective_replacement_witness :
    (∀ r ∈ (retry_failed_chunks envLlmDown 1 [failedResult "x" 2] 3 []).1,
      r.retry_count = 3) ∧
      (mergeRetryResults [failedResult "x" 2] [failedResult "y" 2]).1 =
        (([failedResult "y" 2]).filter (fun r => r.success)).foldl replaceByPage
          [failedResult "x" 2] ∧
      (mergeRetryResults [failedResult "x" 2] [failedResult "y" 2]).2 =
        ([failedResult "y" 2]).filter (fun r => !r.success) :=
  retry_tagging_and_selective_replacement envLlmDown 1 [failedResult "x" 2] 3 []
    [failedResult "x" 2] [failedResult "y" 2]


theorem process_page_chunk_cache (env : Env) (a : Nat) (cache : Cache) (chunk : List Nat) :
    (process_page_chunk env a cache chunk).2.1 = (runChunkOcr env a cache chunk).2.1 := by
  unfold process_page_chunk
  rcases h : runChunkOcr env a cache chunk with ⟨exc, c₂, n⟩
  cases exc <;> rfl

theorem process_page_chunk_calls (env : Env) (a : Nat) (cache : Cache) (chunk : List Nat) :
    (process_page_chunk env a cache chunk).2.2 = (runChunkOcr env a cache chunk).2.2 := by
  unfold process_page_chunk
  rcases h : runChunkOcr env a cache chunk with ⟨exc, c₂, n⟩
  cases exc <;> rfl

theorem runChunkOcr_cache (env : Env) (a : Nat) (cache : Cache) (chunk : List Nat) :
    (runChunkOcr env a cache chunk).2.1 = cache ∨
      ∃ r, env.llm a chunk = Except.ok r ∧
        (runChunkOcr env a cache chunk).2.1 =
          cachePut cache (create_cache_key env.doc chunk)
            (r.text, r.input_tokens, r.output_tokens) := by
  rcases hs : create_pdf_subset_bytes env.pageCount chunk with e | zb
  · left
    unfold runChunkOcr
    rw [hs]
  · rcases hl : cacheLookup cache (create_cache_key env.doc chunk) with _ | v
    · rcases hc : env.llm a chunk with e2 | r
      · left
        unfold runChunkOcr
        rw [hs, hl, hc]
      · refine Or.inr ⟨r, rfl, ?_⟩
        unfold runChunkOcr
        rw [hs, hl, hc]
    · left
      unfold runChunkOcr
      rw [hs, hl]

theorem process_page_chunk_cache_clean (env : Env) (p : Nat)
    (hfail : ∀ a c, p ∈ c → ∃ msg, env.llm a c = Except.error msg)
    (a : Nat) (cache : Cache) (chunk : List Nat) (hcc : CacheClean env p cache) :
    CacheClean env p ((process_page_chunk env a cache chunk).2.1) := by
  intro c hpc
  rw [process_page_chunk_cache]
  rcases runChunkOcr_cache env a cache chunk with h | ⟨r, hr, h⟩
  · rw [h]; exact hcc c hpc
  · rw [h]
    have hnp : p ∉ chunk := by
      intro hp
      rcases hfail a chunk hp with ⟨msg, hmsg⟩
      rw [hmsg] at hr
      exact Except.noConfusion hr
    rw [cacheLookup_cachePut_ne]
    · exact hcc c hpc
    · intro hkey
      have hperm := (create_cache_key_eq_iff env.doc chunk c).mp hkey
      exact hnp (hperm.mem_iff.mpr hpc)

theorem runChunkOcr_p_error (env : Env) (p : Nat)
    (hfail : ∀ a c, p ∈ c → ∃ msg, env.llm a c = Except.error msg)
    (a : Nat) (cache : Cache) (chunk : List Nat)
    (hcc : CacheClean env p cache) (hp : p ∈ chunk) :
    ∃ msg n, runChunkOcr env a cache chunk = (Except.error msg, cache, n) := by
  unfold runChunkOcr
  rcases hs : create_pdf_subset_bytes env.pageCount chunk with e | zb
  · exact ⟨e, 0, rfl⟩
  · simp only [hcc chunk hp]
    rcases hfail a chunk hp with ⟨msg, hmsg⟩
    simp only [hmsg]
    exact ⟨msg, 1, rfl⟩

theorem process_page_chunk_p_shape (env : Env) (p : Nat)
    (hfail : ∀ a c, p ∈ c → ∃ msg, env.llm a c = Except.error msg)
    (a : Nat) (cache : Cache) (chunk : List Nat)
    (hcc : CacheClean env p cache) (hp : p ∈ chunk) :
    ∃ msg, (process_page_chunk env a cache chunk).1 = chunk.map (failedResult msg) := by
  rcases runChunkOcr_p_error env p hfail a cache chunk hcc hp with ⟨msg, n, h⟩
  refine ⟨msg, ?_⟩
  rw [process_page_chunk_of_error env a cache chunk msg cache n h]

theorem runChunks_p_preserved (env : Env) (p : Nat)
    (hfail : ∀ a c, p ∈ c → ∃ msg, env.llm a c = Except.error msg) (a : Nat) :
    ∀ (CS : List (List Nat)) (cache : Cache), CacheClean env p cache →
      CacheClean env p ((runChunks env a CS cache).2.1) := by
  intro CS
  induction CS with
  | nil => intro cache h; exact h
  | cons c rest ih =>
    intro cache h
    exact ih _ (process_page_chunk_cache_clean env p hfail a cache c h)

theorem runChunks_p_all_failed (env : Env) (p : Nat)
    (hfail : ∀ a c, p ∈ c → ∃ msg, env.llm a c = Except.error msg) (a : Nat) :
    ∀ (CS : List (List Nat)) (cache : Cache), CacheClean env p cache →
      ∀ r ∈ (runChunks env a CS cache).1, r.page = p → r.success = false := by
  intro CS
  induction CS with
  | nil => intro cache _ r hr; simp [runChunks] at hr
  | cons c rest ih =>
    intro cache hcc r hr hrp
    have hr2 : r ∈ (process_page_chunk env a cache c).1 ++
        (runChunks env a rest (process_page_chunk env a cache c).2.1).1 := hr
    rcases List.mem_append.mp hr2 with h | h
    · by_cases hp : p ∈ c
      · rcases process_page_chunk_p_shape env p hfail a cache c hcc hp with ⟨msg, hsh⟩
        rw [hsh] at h
        rcases List.mem_map.mp h with ⟨x, _, rfl⟩
        rfl
      · exfalso
        have : r.page ∈ c := by
          rw [← process_page_chunk_pages env a cache c]
          exact List.mem_map_of_mem _ h
        exact hp (hrp ▸ this)
    · exact ih _ (process_page_chunk_cache_clean env p hfail a cache c hcc) r h hrp

theorem foldl_replace_preserves (p : Nat) :
    ∀ (ss : List PageResult) (l : List PageResult),
      (∀ s ∈ ss, s.page ≠ p) → (∀ r ∈ l, r.page = p → r.success = false) →
      ∀ r ∈ ss.foldl replaceByPage l, r.page = p → r.success = false := by
  intro ss
  induction ss with
  | nil => intro l _ hl; exact hl
  | cons s rest ih =>
    intro l hss hl
    simp only [List.foldl_cons]
    apply ih (replaceByPage l s) (fun x hx => hss x (List.mem_cons_of_mem s hx))
    intro r hr hrp
    rcases replaceByPage_mem l s r hr with h | h
    · exact absurd hrp (h ▸ hss s (List.mem_cons_self s rest))
    · exact hl r h hrp

theorem sortByPage_mem (rs : List PageResult) (r : PageResult) :
    r ∈ sortByPage rs ↔ r ∈ rs :=
  (List.perm_insertionSort _ rs).mem_iff

theorem retry_failed_chunks_eq (env : Env) (k : Nat) (fp : List PageResult) (a : Nat)
    (cache : Cache) :
    retry_failed_chunks env k fp a cache =
      ((runChunks env a (chunkList (pySorted (fp.map (fun x => x.page))) k) cache).1.map
        (fun x => { x with retry_count := a }),
       (runChunks env a (chunkList (pySorted (fp.map (fun x => x.page))) k) cache).2.1,
       (runChunks env a (chunkList (pySorted (fp.map (fun x => x.page))) k) cache).2.2) := rfl

theorem retryLoop_cons_ne (env : Env) (k a : Nat) (rest : List Nat) (acc : BatchAcc)
    (h : acc.failedPages.isEmpty = false) :
    retryLoop env k (a :: rest) acc =
      retryLoop env k rest
        { results :=
            (mergeRetryResults acc.results
              (retry_failed_chunks env k acc.failedPages a acc.cache).1).1
          failedPages :=
            (mergeRetryResults acc.results
              (retry_failed_chunks env k acc.failedPages a acc.cache).1).2
          cache := (retry_failed_chunks env k acc.failedPages a acc.cache).2.1
          llmCalls := acc.llmCalls + (retry_failed_chunks env k acc.failedPages a acc.cache).2.2
          retryTrace :=
            acc.retryTrace ++ [(a, pySorted (acc.failedPages.map (fun x => x.page)))] } := by
  rw [retryLoop]
  simp only [h, Bool.false_eq_true, if_false]

theorem retryLoop_invariant (env : Env) (k p : Nat) (hk : 1 ≤ k)
    (hfail : ∀ a c, p ∈ c → ∃ msg, env.llm a c = Except.error msg) :
    ∀ (attempts : List Nat) (acc : BatchAcc),
      (∃ r ∈ acc.failedPages, r.page = p) →
      (∀ r ∈ acc.results, r.page = p → r.success = false) →
      CacheClean env p acc.cache →
      ((retryLoop env k attempts acc).retryTrace.map (fun t => t.1)
          = acc.retryTrace.map (fun t => t.1) ++ attempts) ∧
        (∀ t ∈ (retryLoop env k attempts acc).retryTrace, t ∈ acc.retryTrace ∨ p ∈ t.2) ∧
        (∀ r ∈ (retryLoop env k attempts acc).results, r.page = p → r.success = false) ∧
        CacheClean env p (retryLoop env k attempts acc).cache := by
  intro attempts
  induction attempts with
  | nil =>
    intro acc h1 h2 h3
    exact ⟨by simp [retryLoop], fun t ht => Or.inl ht, h2, h3⟩
  | cons a rest ih =>
    intro acc h1 h2 h3
    have hne : acc.failedPages.isEmpty = false := by
      rcases h1 with ⟨r, hr, _⟩
      cases hl : acc.failedPages with
      | nil => rw [hl] at hr; simp at hr
      | cons x xs => rfl
    rw [retryLoop_cons_ne env k a rest acc hne]
    rcases h1 with ⟨r0, hr0, hr0p⟩
    have hpmem : p ∈ pySorted (acc.failedPages.map (fun x => x.page)) := by
      apply (pySorted_perm _).mem_iff.mpr
      exact hr0p ▸ List.mem_map_of_mem (fun x => x.page) hr0
    have hpflat : p ∈ (chunkList (pySorted (acc.failedPages.map (fun x => x.page))) k).flatten := by
      rw [chunkList_flatten _ k hk]
      exact hpmem
    have hall := runChunks_p_all_failed env p hfail a
      (chunkList (pySorted (acc.failedPages.map (fun x => x.page))) k) acc.cache h3
    have hclean2 := runChunks_p_preserved env p hfail a
      (chunkList (pySorted (acc.failedPages.map (fun x => x.page))) k) acc.cache h3
    have hex : ∃ x ∈ (runChunks env a
        (chunkList (pySorted (acc.failedPages.map (fun x => x.page))) k) acc.cache).1,
        x.page = p := by
      have := runChunks_pages env a
        (chunkList (pySorted (acc.failedPages.map (fun x => x.page))) k) acc.cache
      have hp2 : p ∈ ((runChunks env a
          (chunkList (pySorted (acc.failedPages.map (fun x => x.page))) k) acc.cache).1).map
          (fun x => x.page) := by
        rw [this]; exact hpflat
      rcases List.mem_map.mp hp2 with ⟨x, hx, hxp⟩
      exact ⟨x, hx, hxp⟩
    rw [retry_failed_chunks_eq]
    have hIH := ih
      { results :=
          (mergeRetryResults acc.results
            ((runChunks env a (chunkList (pySorted (acc.failedPages.map (fun x => x.page))) k)
              acc.cache).1.map (fun x => { x with retry_count := a }))).1
        failedPages :=
          (mergeRetryResults acc.results
            ((runChunks env a (chunkList (pySorted (acc.failedPages.map (fun x => x.page))) k)
              acc.cache).1.map (fun x => { x with retry_count := a }))).2
        cache := (runChunks env a (chunkList (pySorted (acc.failedPages.map (fun x => x.page))) k)
          acc.cache).2.1
        llmCalls := acc.llmCalls + (runChunks env a
          (chunkList (pySorted (acc.failedPages.map (fun x => x.page))) k) acc.cache).2.2
        retryTrace :=
          acc.retryTrace ++ [(a, pySorted (acc.failedPages.map (fun x => x.page)))] }
      ?h1 ?h2 ?h3
    case h1 =>
      rcases hex with ⟨x, hx, hxp⟩
      refine ⟨{ x with retry_count := a }, ?_, hxp⟩
      rw [mergeRetryResults_still_failed]
      rw [List.mem_filter]
      constructor
      · exact List.mem_map_of_mem _ hx
      · have hxs : x.success = false := hall x hx hxp
        simp [hxs]
    case h2 =>
      intro r hr hrp
      rw [mergeRetryResults_aggregate] at hr
      refine foldl_replace_preserves p _ acc.results ?_ h2 r hr hrp
      intro s hs
      rcases List.mem_filter.mp hs with ⟨hs1, hs2⟩
      rcases List.mem_map.mp hs1 with ⟨x, hx, rfl⟩
      intro hsp
      have : x.success = false := hall x hx hsp
      simp only [this] at hs2
      exact Bool.noConfusion hs2
    case h3 => exact hclean2
    obtain ⟨hT1, hT2, hT3, hT4⟩ := hIH
    refine ⟨?_, ?_, hT3, hT4⟩
    · rw [hT1]
      simp
    · intro t ht
      rcases hT2 t ht with h | h
      · rcases List.mem_append.mp h with h | h
        · exact Or.inl h
        · rw [List.mem_singleton] at h
          subst h
          exact Or.inr hpmem
      · exact Or.inr h

/-- Claim C3: a page of a valid request whose chunk fails on the initial
pass and on every retry attempt (LLM raises for every chunk containing the
page, starting from an empty cache) is resubmitted in exactly the retry
attempts 1..maxRetries — never a further time — and its final record is
resolved by the offline fallback extractor with success=true. -/
theorem always_failing_page_retry_bound (env : Env) (k maxR start e p : Nat)
    (hk : 1 ≤ k) (h1 : 1 ≤ start) (hse : start ≤ e) (hpc : e ≤ env.pageCount)
    (hp : p ∈ List.range' start (e + 1 - start))
    (hfail : ∀ a c, p ∈ c → ∃ msg, env.llm a c = Except.error msg) :
    ((process_document_async env k maxR start e []).retryTrace.map (fun t => t.1)
        = List.range' 1 maxR) ∧
      (∀ t ∈ (process_document_async env k maxR start e []).retryTrace, p ∈ t.2) ∧
      (∃ r ∈ (process_document_async env k maxR start e []).finalResults, r.page = p) ∧
      ∀ r ∈ (process_document_async env k maxR start e []).finalResults, r.page = p →
        r.success = true ∧ r.method = "pymupdf_fallback" ∧
          r.text = some (extract_with_pymupdf_fallback env p) := by
  have hcc0 : CacheClean env p ([] : Cache) := fun c _ => rfl
  have hpflat : p ∈ (chunkList (List.range' start (e + 1 - start)) k).flatten := by
    rw [chunkList_flatten _ k hk]
    exact hp
  have hall := runChunks_p_all_failed env p hfail 0
    (chunkList (List.range' start (e + 1 - start)) k) [] hcc0
  have hclean1 := runChunks_p_preserved env p hfail 0
    (chunkList (List.range' start (e + 1 - start)) k) [] hcc0
  have hex : ∃ x ∈ (runChunks env 0
      (chunkList (List.range' start (e + 1 - start)) k) []).1, x.page = p := by
    have hpg := runChunks_pages env 0 (chunkList (List.range' start (e + 1 - start)) k) []
    have hp2 : p ∈ ((runChunks env 0
        (chunkList (List.range' start (e + 1 - start)) k) []).1).map (fun x => x.page) := by
      rw [hpg]; exact hpflat
    rcases List.mem_map.mp hp2 with ⟨x, hx, hxp⟩
    exact ⟨x, hx, hxp⟩
  have hinv := retryLoop_invariant env k p hk hfail (List.range' 1 maxR)
    { results := (runChunks env 0 (chunkList (List.range' start (e + 1 - start)) k) []).1
      failedPages :=
        ((runChunks env 0 (chunkList (List.range' start (e + 1 - start)) k) []).1).filter
          (fun r => !r.success)
      cache := (runChunks env 0 (chunkList (List.range' start (e + 1 - start)) k) []).2.1
      llmCalls := (runChunks env 0 (chunkList (List.range' start (e + 1 - start)) k) []).2.2
      retryTrace := [] }
    ?i1 ?i2 ?i3
  case i1 =>
    rcases hex with ⟨x, hx, hxp⟩
    refine ⟨x, ?_, hxp⟩
    rw [List.mem_filter]
    exact ⟨hx, by simp [hall x hx hxp]⟩
  case i2 => exact hall
  case i3 => exact hclean1
  obtain ⟨hT1, hT2, hT3, hT4⟩ := hinv
  refine ⟨?_, ?_, ?_, ?_⟩
  · rw [batch_retryTrace_def]
    rw [hT1]
    rfl
  · intro t ht
    rw [batch_retryTrace_def] at ht
    rcases hT2 t ht with h | h
    · simp at h
    · exact h
  · have hpg := batch_finalResults_pages env k maxR start e [] hk
    have hp2 : p ∈ ((process_document_async env k maxR start e []).finalResults).map
        (fun r => r.page) := by
      rw [hpg]; exact hp
    rcases List.mem_map.mp hp2 with ⟨r, hr, hrp⟩
    exact ⟨r, hr, hrp⟩
  · intro r hr hrp
    rw [batch_finalResults_def] at hr
    rw [sortByPage_mem] at hr
    unfold applyFallback at hr
    rcases List.mem_map.mp hr with ⟨x, hx, rfl⟩
    by_cases hxs : x.success = true
    · exfalso
      have hxp : x.page = p := by simpa [hxs] using hrp
      have := hT3 x hx hxp
      rw [this] at hxs
      exact Bool.noConfusion hxs
    · have hxsf : x.success = false := by
        cases h2s : x.success
        · rfl
        · exact absurd h2s hxs
      have hxp : x.page = p := by simpa [hxsf] using hrp
      simp [hxsf, hxp]

/-- Witness for C3: two pages, chunk size 1, two retry attempts, an LLM that
always raises: page 1 is retried in attempts 1 and 2 exactly and is
finalized by the offline fallback. -/
theorem always_failing_page_retry_bound_witness :
    ((process_document_async envLlmDown 1 2 1 2 []).retryTrace.map (fun t => t.1)
        = List.range' 1 2) ∧
      (∀ t ∈ (process_document_async envLlmDown 1 2 1 2 []).retryTrace, 1 ∈ t.2) ∧
      (∃ r ∈ (process_document_async envLlmDown 1 2 1 2 []).finalResults, r.page = 1) ∧
      ∀ r ∈ (process_document_async envLlmDown 1 2 1 2 []).finalResults, r.page = 1 →
        r.success = true ∧ r.method = "pymupdf_fallback" ∧
          r.text = some (extract_with_pymupdf_fallback envLlmDown 1) :=
  always_failing_page_retry_bound envLlmDown 1 2 1 2 1 (by decide) (by decide) (by decide)
    (by decide) (by decide) (fun a c hp => ⟨"boom", rfl⟩)


theorem runChunks_cons (env : Env) (a : Nat) (c : List Nat) (rest : List (List Nat))
    (cache : Cache) :
    runChunks env a (c :: rest) cache =
      ((process_page_chunk env a cache c).1 ++
        (runChunks env a rest (process_page_chunk env a cache c).2.1).1,
       (runChunks env a rest (process_page_chunk env a cache c).2.1).2.1,
       (process_page_chunk env a cache c).2.2 +
         (runChunks env a rest (process_page_chunk env a cache c).2.1).2.2) := rfl

theorem subset_ok_ne_nil (pageCount : Nat) (c : List Nat) (zb : List Nat)
    (h : create_pdf_subset_bytes pageCount c = Except.ok zb) : c ≠ [] := by
  intro hc
  subst hc
  simp [create_pdf_subset_bytes] at h

theorem runChunkOcr_cases (env : Env) (a : Nat) (cache : Cache) (c : List Nat) :
    (∃ e, create_pdf_subset_bytes env.pageCount c = Except.error e ∧
      runChunkOcr env a cache c = (Except.error e, cache, 0)) ∨
    (∃ v, cacheLookup cache (create_cache_key env.doc c) = some v ∧
      (∃ zb, create_pdf_subset_bytes env.pageCount c = Except.ok zb) ∧
      runChunkOcr env a cache c = (Except.ok ⟨v.1, v.2.1, v.2.2, "cached"⟩, cache, 0)) ∨
    (cacheLookup cache (create_cache_key env.doc c) = none ∧
      (∃ zb, create_pdf_subset_bytes env.pageCount c = Except.ok zb) ∧
      ((∃ e, env.llm a c = Except.error e ∧
        runChunkOcr env a cache c = (Except.error e, cache, 1)) ∨
       (∃ r, env.llm a c = Except.ok r ∧
        runChunkOcr env a cache c =
          (Except.ok ⟨r.text, r.input_tokens, r.output_tokens, "llm"⟩,
           cachePut cache (create_cache_key env.doc c)
             (r.text, r.input_tokens, r.output_tokens), 1)))) := by
  rcases hs : create_pdf_subset_bytes env.pageCount c with e | zb
  · refine Or.inl ⟨e, rfl, ?_⟩
    unfold runChunkOcr
    rw [hs]
  · rcases hl : cacheLookup cache (create_cache_key env.doc c) with _ | v
    · rcases hc : env.llm a c with e2 | r
      · refine Or.inr (Or.inr ⟨rfl, ⟨zb, rfl⟩, Or.inl ⟨e2, rfl, ?_⟩⟩)
        unfold runChunkOcr
        rw [hs, hl, hc]
      · refine Or.inr (Or.inr ⟨rfl, ⟨zb, rfl⟩, Or.inr ⟨r, rfl, ?_⟩⟩)
        unfold runChunkOcr
        rw [hs, hl, hc]
    · refine Or.inr (Or.inl ⟨v, rfl, ⟨zb, rfl⟩, ?_⟩)
      unfold runChunkOcr
      rw [hs, hl]

theorem runChunks_frame (env : Env) (a : Nat) :
    ∀ (CS : List (List Nat)) (cache : Cache) (k0 : String),
      (∀ c ∈ CS, create_cache_key env.doc c ≠ k0) →
      cacheLookup ((runChunks env a CS cache).2.1) k0 = cacheLookup cache k0 := by
  intro CS
  induction CS with
  | nil => intro cache k0 _; rfl
  | cons c rest ih =>
    intro cache k0 h
    rw [runChunks_cons]
    show cacheLookup ((runChunks env a rest (process_page_chunk env a cache c).2.1).2.1) k0 = _
    rw [ih _ k0 (fun x hx => h x (List.mem_cons_of_mem c hx))]
    rw [process_page_chunk_cache]
    rcases runChunkOcr_cache env a cache c with hc | ⟨r, _, hc⟩
    · rw [hc]
    · rw [hc, cacheLookup_cachePut_ne _ _ _ _ (h c (List.mem_cons_self c rest))]

theorem runChunks_cons_1 (env : Env) (a : Nat) (c : List Nat) (rest : List (List Nat))
    (cache : Cache) :
    (runChunks env a (c :: rest) cache).1 =
      (process_page_chunk env a cache c).1 ++
        (runChunks env a rest (process_page_chunk env a cache c).2.1).1 := rfl

theorem runChunks_cons_cache (env : Env) (a : Nat) (c : List Nat) (rest : List (List Nat))
    (cache : Cache) :
    (runChunks env a (c :: rest) cache).2.1 =
      (runChunks env a rest (process_page_chunk env a cache c).2.1).2.1 := rfl

theorem runChunks_cons_calls (env : Env) (a : Nat) (c : List Nat) (rest : List (List Nat))
    (cache : Cache) :
    (runChunks env a (c :: rest) cache).2.2 =
      (process_page_chunk env a cache c).2.2 +
        (runChunks env a rest (process_page_chunk env a cache c).2.1).2.2 := rfl

theorem prod3_ext {α β γ : Type} {t : α × β × γ} {a : α} {b : β} {c : γ}
    (h1 : t.1 = a) (h2 : t.2.1 = b) (h3 : t.2.2 = c) : t = (a, b, c) := by
  rcases t with ⟨x, y, z⟩
  exact Prod.ext h1 (Prod.ext h2 h3)

theorem runChunks_warm_step (env : Env) (a2 : Nat) (c : List Nat) (rest : List (List Nat))
    (cache X : Cache) (res0 res2 : List PageResult) (n0 : Nat)
    (hc0 : process_page_chunk env 0 cache c = (res0, X, n0))
    (hc2 : process_page_chunk env a2 ((runChunks env 0 rest X).2.1) c =
      (res2, (runChunks env 0 rest X).2.1, 0))
    (hres2 : res2 = res0.map (fun r => { r with method := "cached" }))
    (hIH : runChunks env a2 rest ((runChunks env 0 rest X).2.1) =
      (((runChunks env 0 rest X).1).map (fun r => { r with method := "cached" }),
       (runChunks env 0 rest X).2.1, 0)) :
    runChunks env a2 (c :: rest) ((runChunks env 0 (c :: rest) cache).2.1) =
      (((runChunks env 0 (c :: rest) cache).1).map (fun r => { r with method := "cached" }),
       (runChunks env 0 (c :: rest) cache).2.1, 0) := by
  have hc01 : (process_page_chunk env 0 cache c).2.1 = X := by rw [hc0]
  have hCF : (runChunks env 0 (c :: rest) cache).2.1 = (runChunks env 0 rest X).2.1 := by
    rw [runChunks_cons_cache, hc01]
  have hall1 : (runChunks env 0 (c :: rest) cache).1 =
      res0 ++ (runChunks env 0 rest X).1 := by
    rw [runChunks_cons_1, hc01, show (process_page_chunk env 0 cache c).1 = res0 by rw [hc0]]
  rw [hCF, hall1]
  apply prod3_ext
  · rw [runChunks_cons_1,
      show (process_page_chunk env a2 ((runChunks env 0 rest X).2.1) c).2.1 =
        (runChunks env 0 rest X).2.1 by rw [hc2],
      show (process_page_chunk env a2 ((runChunks env 0 rest X).2.1) c).1 = res2 by rw [hc2],
      show (runChunks env a2 rest ((runChunks env 0 rest X).2.1)).1 =
        ((runChunks env 0 rest X).1).map (fun r => { r with method := "cached" }) by rw [hIH],
      hres2, List.map_append]
  · rw [runChunks_cons_cache,
      show (process_page_chunk env a2 ((runChunks env 0 rest X).2.1) c).2.1 =
        (runChunks env 0 rest X).2.1 by rw [hc2],
      show (runChunks env a2 rest ((runChunks env 0 rest X).2.1)).2.1 =
        (runChunks env 0 rest X).2.1 by rw [hIH]]
  · rw [runChunks_cons_calls,
      show (process_page_chunk env a2 ((runChunks env 0 rest X).2.1) c).2.1 =
        (runChunks env 0 rest X).2.1 by rw [hc2],
      show (process_page_chunk env a2 ((runChunks env 0 rest X).2.1) c).2.2 = 0 by rw [hc2],
      show (runChunks env a2 rest ((runChunks env 0 rest X).2.1)).2.2 = 0 by rw [hIH]]

theorem runChunks_warm (env : Env) (a2 : Nat) :
    ∀ (CS : List (List Nat)) (cache : Cache),
      CS.Pairwise (fun c₁ c₂ => create_cache_key env.doc c₁ ≠ create_cache_key env.doc c₂) →
      (∀ r ∈ (runChunks env 0 CS cache).1, r.success = true) →
      runChunks env a2 CS ((runChunks env 0 CS cache).2.1) =
        (((runChunks env 0 CS cache).1).map (fun r => { r with method := "cached" }),
         (runChunks env 0 CS cache).2.1, 0) := by
  intro CS
  induction CS with
  | nil => intro cache _ _; rfl
  | cons c rest ih =>
    intro cache hpw hall
    obtain ⟨hkey, hpwrest⟩ := List.pairwise_cons.mp hpw
    have hkeyR : ∀ x ∈ rest, create_cache_key env.doc x ≠ create_cache_key env.doc c :=
      fun x hx hkeq => hkey x hx hkeq.symm
    have hallP : ∀ r ∈ (process_page_chunk env 0 cache c).1, r.success = true := by
      intro r hr
      apply hall r
      rw [runChunks_cons_1]
      exact List.mem_append_left _ hr
    have hallR : ∀ X : Cache, (process_page_chunk env 0 cache c).2.1 = X →
        ∀ r ∈ (runChunks env 0 rest X).1, r.success = true := by
      intro X hX r hr
      apply hall r
      rw [runChunks_cons_1, hX]
      exact List.mem_append_right _ hr
    rcases runChunkOcr_cases env 0 cache c with
      ⟨e, hsub, hrun⟩ | ⟨v, hl, ⟨zb, hsub⟩, hrun⟩ | ⟨hl, ⟨zb, hsub⟩, hllm⟩
    · -- subset creation failed: only possible for the empty chunk here
      cases c with
      | nil =>
        have hc0 : process_page_chunk env 0 cache [] = ([], cache, 0) := by
          rw [process_page_chunk_of_error env 0 cache [] e cache 0 hrun]
          rfl
        have hrun2 : runChunkOcr env a2 ((runChunks env 0 rest cache).2.1) [] =
            (Except.error e, (runChunks env 0 rest cache).2.1, 0) := by
          unfold runChunkOcr
          rw [hsub]
        have hc2 : process_page_chunk env a2 ((runChunks env 0 rest cache).2.1) [] =
            ([], (runChunks env 0 rest cache).2.1, 0) := by
          rw [process_page_chunk_of_error env a2 _ [] e _ 0 hrun2]
          rfl
        exact runChunks_warm_step env a2 [] rest cache cache [] [] 0 hc0 hc2 rfl
          (ih cache hpwrest (hallR cache (by rw [hc0])))
      | cons x xs =>
        exfalso
        have hshape := process_page_chunk_of_error env 0 cache (x :: xs) e cache 0 hrun
        have hmem : failedResult e x ∈ (process_page_chunk env 0 cache (x :: xs)).1 := by
          rw [hshape]
          exact List.mem_map_of_mem _ (List.mem_cons_self x xs)
        have hbad := hallP _ hmem
        rw [failedResult_success] at hbad
        exact Bool.noConfusion hbad
    · -- cache hit on the initial pass
      have hc0 := process_page_chunk_of_ok env 0 cache c ⟨v.1, v.2.1, v.2.2, "cached"⟩
        cache 0 hrun
      have hframe : cacheLookup ((runChunks env 0 rest cache).2.1)
          (create_cache_key env.doc c) = some v := by
        rw [runChunks_frame env 0 rest cache _ hkeyR, hl]
      have hrun2 : runChunkOcr env a2 ((runChunks env 0 rest cache).2.1) c =
          (Except.ok ⟨v.1, v.2.1, v.2.2, "cached"⟩, (runChunks env 0 rest cache).2.1, 0) := by
        unfold runChunkOcr
        rw [hsub, hframe]
      have hc2 := process_page_chunk_of_ok env a2 ((runChunks env 0 rest cache).2.1) c
        ⟨v.1, v.2.1, v.2.2, "cached"⟩ ((runChunks env 0 rest cache).2.1) 0 hrun2
      refine runChunks_warm_step env a2 c rest cache cache _ _ 0 hc0 hc2 ?_ 
        (ih cache hpwrest (hallR cache (by rw [hc0])))
      rw [List.map_map]
      rfl
    · rcases hllm with ⟨e, hllmE, hrun⟩ | ⟨r, hllmOk, hrun⟩
      · -- LLM raised on the initial pass: the chunk records would be failed
        exfalso
        have hshape := process_page_chunk_of_error env 0 cache c e cache 1 hrun
        rcases List.exists_mem_of_ne_nil c (subset_ok_ne_nil env.pageCount c zb hsub)
          with ⟨x, hx⟩
        have hmem : failedResult e x ∈ (process_page_chunk env 0 cache c).1 := by
          rw [hshape]
          exact List.mem_map_of_mem _ hx
        have hbad := hallP _ hmem
        rw [failedResult_success] at hbad
        exact Bool.noConfusion hbad
      · -- fresh LLM result, cached under the chunk key
        have hc0 := process_page_chunk_of_ok env 0 cache c
          ⟨r.text, r.input_tokens, r.output_tokens, "llm"⟩
          (cachePut cache (create_cache_key env.doc c)
            (r.text, r.input_tokens, r.output_tokens)) 1 hrun
        have hframe : cacheLookup ((runChunks env 0 rest
            (cachePut cache (create_cache_key env.doc c)
              (r.text, r.input_tokens, r.output_tokens))).2.1)
            (create_cache_key env.doc c) = some (r.text, r.input_tokens, r.output_tokens) := by
          rw [runChunks_frame env 0 rest _ _ hkeyR, cacheLookup_cachePut_self]
        have hrun2 : runChunkOcr env a2 ((runChunks env 0 rest
            (cachePut cache (create_cache_key env.doc c)
              (r.text, r.input_tokens, r.output_tokens))).2.1) c =
            (Except.ok ⟨r.text, r.input_tokens, r.output_tokens, "cached"⟩,
             (runChunks env 0 rest (cachePut cache (create_cache_key env.doc c)
               (r.text, r.input_tokens, r.output_tokens))).2.1, 0) := by
          unfold runChunkOcr
          rw [hsub, hframe]
        have hc2 := process_page_chunk_of_ok env a2 ((runChunks env 0 rest
            (cachePut cache (create_cache_key env.doc c)
              (r.text, r.input_tokens, r.output_tokens))).2.1) c
          ⟨r.text, r.input_tokens, r.output_tokens, "cached"⟩
          ((runChunks env 0 rest (cachePut cache (create_cache_key env.doc c)
            (r.text, r.input_tokens, r.output_tokens))).2.1) 0 hrun2
        refine runChunks_warm_step env a2 c rest cache
          (cachePut cache (create_cache_key env.doc c)
            (r.text, r.input_tokens, r.output_tokens)) _ _ 1 hc0 hc2 ?_
          (ih (cachePut cache (create_cache_key env.doc c)
            (r.text, r.input_tokens, r.output_tokens)) hpwrest
            (hallR _ (by rw [hc0])))
        rw [List.map_map]
        rfl

theorem retryLoop_no_failed (env : Env) (k : Nat) :
    ∀ (attempts : List Nat) (acc : BatchAcc), acc.failedPages = [] →
      retryLoop env k attempts acc = acc := by
  intro attempts
  induction attempts with
  | nil => intro acc _; rfl
  | cons a rest ih =>
    intro acc h
    rw [retryLoop]
    rw [if_pos (by rw [h]; rfl)]

theorem applyFallback_all_success (env : Env) (rs : List PageResult)
    (h : ∀ r ∈ rs, r.success = true) : applyFallback env rs = rs := by
  unfold applyFallback
  have heq : ∀ r ∈ rs, (fun x : PageResult =>
      if x.success = true then x
      else { x with
              text := some (extract_with_pymupdf_fallback env x.page)
              method := "pymupdf_fallback"
              success := true
              error := none }) r = id r := by
    intro r hr
    simp [h r hr]
  rw [List.map_congr_left heq, List.map_id]

theorem chunkList_keys_pairwise (env : Env) (l : List Nat) (k : Nat) (hk : 1 ≤ k)
    (hnd : l.Nodup) :
    (chunkList l k).Pairwise
      (fun c₁ c₂ => create_cache_key env.doc c₁ ≠ create_cache_key env.doc c₂) := by
  have hflat : (chunkList l k).flatten = l := chunkList_flatten l k hk
  have hndf : ((chunkList l k).flatten).Nodup := by
    rw [hflat]
    exact hnd
  have hdisj := (List.nodup_flatten.mp hndf).2
  have hne := chunkList_ne_nil l k hk
  apply List.Pairwise.imp_of_mem ?_ hdisj
  intro c₁ c₂ h₁ h₂ hdis hkeq
  have hperm := (create_cache_key_eq_iff env.doc c₁ c₂).mp hkeq
  rcases List.exists_mem_of_ne_nil c₁ (hne c₁ h₁) with ⟨x, hx⟩
  exact hdis hx (hperm.mem_iff.mp hx)

theorem retryLoop_collapse (env : Env) (k maxR : Nat) (R1 : List PageResult)
    (C1 : Cache) (N1 : Nat) (hfail0 : R1.filter (fun r => !r.success) = []) :
    retryLoop env k (List.range' 1 maxR)
      { results := R1, failedPages := R1.filter (fun r => !r.success),
        cache := C1, llmCalls := N1, retryTrace := [] } =
      { results := R1, failedPages := [], cache := C1, llmCalls := N1, retryTrace := [] } := by
  rw [hfail0]
  exact retryLoop_no_failed env k _ _ rfl

theorem buildTextParts_method_congr (m : String) :
    ∀ rs : List PageResult,
      buildTextParts (rs.map (fun r => { r with method := m })) = buildTextParts rs := by
  intro rs
  induction rs with
  | nil => rfl
  | cons x t ih =>
    simp only [buildTextParts, List.map_cons, List.filterMap_cons] at *
    rcases ht : x.text with _ | s
    · simpa [ht] using ih
    · by_cases hs : s = ""
      · simpa [ht, hs] using ih
      · simp only [ht, hs, if_neg hs]
        rw [ih]


theorem chunkListAux_nil_eq (k : Nat) : ∀ fuel, chunkListAux fuel [] k = [] := by
  intro fuel
  cases fuel <;> rfl

theorem chunkListAux_length_le (k : Nat) :
    ∀ fuel l, ∀ c ∈ chunkListAux fuel l k, c.length ≤ k := by
  intro fuel
  induction fuel with
  | zero => intro l c hc; simp [chunkListAux] at hc
  | succ f ih =>
    intro l c hc
    match l with
    | [] => simp [chunkListAux] at hc
    | x :: xs =>
      simp only [chunkListAux, List.mem_cons] at hc
      rcases hc with h | h
      · subst h
        exact List.length_take_le k (x :: xs)
      · exact ih _ c h

theorem chunkList_length_le (l : List Nat) (k : Nat) :
    ∀ c ∈ chunkList l k, c.length ≤ k :=
  chunkListAux_length_le k l.length l

theorem dropLast_cons2 {α : Type} (a b : α) (l : List α) :
    (a :: b :: l).dropLast = a :: (b :: l).dropLast := rfl

theorem chunkListAux_dropLast_length (k : Nat) (hk : 1 ≤ k) :
    ∀ fuel l, l.length ≤ fuel → ∀ c ∈ (chunkListAux fuel l k).dropLast, c.length = k := by
  intro fuel
  induction fuel with
  | zero => intro l hl c hc; simp [chunkListAux] at hc
  | succ f ih =>
    intro l hl c hc
    match l with
    | [] => simp [chunkListAux] at hc
    | x :: xs =>
      simp only [chunkListAux] at hc
      rcases htail : chunkListAux f ((x :: xs).drop k) k with _ | ⟨d, ds⟩
      · rw [htail] at hc
        simp at hc
      · rw [htail, dropLast_cons2] at hc
        rcases List.mem_cons.mp hc with h | h
        · subst h
          have hdn : (x :: xs).drop k ≠ [] := by
            intro hd
            rw [hd, chunkListAux_nil_eq] at htail
            exact List.noConfusion htail
          have hlen : k < (x :: xs).length := by
            by_contra hnot
            push_neg at hnot
            exact hdn (List.drop_eq_nil_of_le hnot)
          rw [List.length_take]
          omega
        · rw [← htail] at h
          apply ih ((x :: xs).drop k) ?_ c h
          simp only [List.length_drop, List.length_cons] at hl ⊢
          omega

theorem chunkList_dropLast_length (l : List Nat) (k : Nat) (hk : 1 ≤ k) :
    ∀ c ∈ (chunkList l k).dropLast, c.length = k :=
  chunkListAux_dropLast_length k hk l.length l (Nat.le_refl _)

theorem chunkListAux_stable (k : Nat) (hk : 1 ≤ k) :
    ∀ f₁ f₂ l, l.length ≤ f₁ → l.length ≤ f₂ →
      chunkListAux f₁ l k = chunkListAux f₂ l k := by
  intro f₁
  induction f₁ with
  | zero =>
    intro f₂ l h₁ h₂
    have : l = [] := List.length_eq_zero.mp (by omega)
    subst this
    rw [chunkListAux_nil_eq, chunkListAux_nil_eq]
  | succ f ih =>
    intro f₂ l h₁ h₂
    match l with
    | [] => rw [chunkListAux_nil_eq, chunkListAux_nil_eq]
    | x :: xs =>
      match f₂ with
      | 0 => exact absurd h₂ (by simp only [List.length_cons]; omega)
      | g + 1 =>
        simp only [chunkListAux]
        rw [ih g ((x :: xs).drop k)
          (by simp only [List.length_drop, List.length_cons] at h₁ ⊢; omega)
          (by simp only [List.length_drop, List.length_cons] at h₂ ⊢; omega)]

theorem chunkList_cons_block (k : Nat) (hk : 1 ≤ k) :
    ∀ (c rest : List Nat), c.length = k →
      chunkList (c ++ rest) k = c :: chunkList rest k := by
  intro c rest hlen
  match c with
  | [] =>
    rw [List.length_nil] at hlen
    exact absurd hlen (by omega)
  | x :: xs =>
    show chunkListAux ((x :: xs) ++ rest).length ((x :: xs) ++ rest) k =
      (x :: xs) :: chunkList rest k
    have hfx : ((x :: xs) ++ rest).length = (xs.length + rest.length) + 1 := by
      simp only [List.length_append, List.length_cons]
      omega
    rw [hfx, List.cons_append]
    simp only [chunkListAux]
    rw [← List.cons_append, List.take_left' hlen, List.drop_left' hlen]
    rw [chunkListAux_stable k hk (xs.length + rest.length) rest.length rest
      (by omega) (Nat.le_refl _)]
    rfl

theorem chunkList_single_block (k : Nat) (c : List Nat) (hne : c ≠ [])
    (hle : c.length ≤ k) : chunkList c k = [c] := by
  match c with
  | [] => exact absurd rfl hne
  | x :: xs =>
    show chunkListAux (x :: xs).length (x :: xs) k = [x :: xs]
    have hfx : (x :: xs).length = xs.length + 1 := rfl
    rw [hfx]
    simp only [chunkListAux]
    rw [List.take_of_length_le hle, List.drop_eq_nil_of_le hle, chunkListAux_nil_eq]

theorem chunkList_reconstruct (k : Nat) (hk : 1 ≤ k) :
    ∀ FS : List (List Nat), (∀ c ∈ FS, c ≠ []) → (∀ c ∈ FS, c.length ≤ k) →
      (∀ c ∈ FS.dropLast, c.length = k) → chunkList FS.flatten k = FS := by
  intro FS
  induction FS with
  | nil => intro _ _ _; rfl
  | cons c FS' ih =>
    intro hne hle hdl
    cases FS' with
    | nil =>
      simp only [List.flatten_cons, List.flatten_nil, List.append_nil]
      exact chunkList_single_block k c (hne c (List.mem_cons_self c []))
        (hle c (List.mem_cons_self c []))
    | cons d FS'' =>
      have hck : c.length = k :=
        hdl c (by rw [dropLast_cons2]; exact List.mem_cons_self _ _)
      simp only [List.flatten_cons]
      rw [chunkList_cons_block k hk c _ hck]
      congr 1
      rw [← List.flatten_cons]
      exact ih (fun x hx => hne x (List.mem_cons_of_mem c hx))
        (fun x hx => hle x (List.mem_cons_of_mem c hx))
        (fun x hx => hdl x (by rw [dropLast_cons2]; exact List.mem_cons_of_mem c hx))

theorem pair_sublist_mem_dropLast {α : Type} (c d : α) :
    ∀ CS : List α, [c, d].Sublist CS → c ∈ CS.dropLast := by
  intro CS
  induction CS with
  | nil => intro h; exact absurd (List.sublist_nil.mp h) (by simp)
  | cons a CS' ih =>
    intro h
    cases h with
    | cons a2 h' =>
      have hc := ih h'
      cases CS' with
      | nil => simp at hc
      | cons b t =>
        rw [dropLast_cons2]
        exact List.mem_cons_of_mem a hc
    | cons₂ a2 h' =>
      have hd : d ∈ CS' := List.singleton_sublist.mp h'
      cases CS' with
      | nil => simp at hd
      | cons b t =>
        rw [dropLast_cons2]
        exact List.mem_cons_self _ _

theorem mem_dropLast_pair {α : Type} :
    ∀ (CS : List α) (c : α), c ∈ CS.dropLast → ∃ d, [c, d].Sublist CS := by
  intro CS
  induction CS with
  | nil => intro c hc; simp at hc
  | cons a CS' ih =>
    intro c hc
    cases CS' with
    | nil => simp at hc
    | cons b t =>
      rw [dropLast_cons2] at hc
      rcases List.mem_cons.mp hc with rfl | hc'
      · exact ⟨b, List.Sublist.cons₂ c (List.Sublist.cons₂ b (List.nil_sublist t))⟩
      · obtain ⟨d, hsub⟩ := ih c hc'
        exact ⟨d, List.Sublist.cons a hsub⟩

theorem sublist_dropLast_length (k : Nat) {FS CS : List (List Nat)} (h : FS.Sublist CS)
    (hCS : ∀ c ∈ CS.dropLast, c.length = k) : ∀ c ∈ FS.dropLast, c.length = k := by
  intro c hc
  obtain ⟨d, hp⟩ := mem_dropLast_pair FS c hc
  exact hCS c (pair_sublist_mem_dropLast c d CS (hp.trans h))

theorem flatten_sublist {α : Type} {FS CS : List (List α)} (h : FS.Sublist CS) :
    FS.flatten.Sublist CS.flatten := by
  induction h with
  | slnil => exact List.Sublist.refl []
  | cons a hsub ih =>
    rw [List.flatten_cons]
    exact ih.trans (List.sublist_append_right a _)
  | cons₂ a hsub ih =>
    rw [List.flatten_cons, List.flatten_cons]
    exact ih.append_left a

theorem pairwise_forall_ne {α : Type} {R : α → α → Prop}
    (hsymm : ∀ x y, R x y → R y x) :
    ∀ {l : List α}, l.Pairwise R → ∀ a ∈ l, ∀ b ∈ l, a ≠ b → R a b := by
  intro l hl
  induction hl with
  | nil => intro a ha; exact absurd ha (List.not_mem_nil a)
  | cons hhead htail ih =>
    intro a ha b hb hne
    rcases List.mem_cons.mp ha with rfl | ha'
    · rcases List.mem_cons.mp hb with rfl | hb'
      · exact absurd rfl hne
      · exact hhead b hb'
    · rcases List.mem_cons.mp hb with rfl | hb'
      · exact hsymm _ _ (hhead a ha')
      · exact ih a ha' b hb' hne

theorem chunkList_chunk_unique (L : List Nat) (k : Nat) (hk : 1 ≤ k) (hnd : L.Nodup) :
    ∀ c₁ ∈ chunkList L k, ∀ c₂ ∈ chunkList L k, ∀ p, p ∈ c₁ → p ∈ c₂ → c₁ = c₂ := by
  have hndf : ((chunkList L k).flatten).Nodup := by
    rw [chunkList_flatten L k hk]
    exact hnd
  have hdisj := (List.nodup_flatten.mp hndf).2
  intro c₁ h₁ c₂ h₂ p hp₁ hp₂
  by_contra hne
  exact pairwise_forall_ne (fun x y h => h.symm) hdisj c₁ h₁ c₂ h₂ hne hp₁ hp₂

theorem chunkList_keys_ne (env : Env) (L : List Nat) (k : Nat) (hk : 1 ≤ k)
    (hnd : L.Nodup) :
    ∀ c₁ ∈ chunkList L k, ∀ c₂ ∈ chunkList L k, c₁ ≠ c₂ →
      create_cache_key env.doc c₁ ≠ create_cache_key env.doc c₂ :=
  fun c₁ h₁ c₂ h₂ hne =>
    pairwise_forall_ne (fun _ _ h => h.symm)
      (chunkList_keys_pairwise env L k hk hnd) c₁ h₁ c₂ h₂ hne

theorem process_page_chunk_dichotomy (env : Env) (a : Nat) (cache : Cache) (c : List Nat) :
    (∃ e c₂ n, process_page_chunk env a cache c = (c.map (failedResult e), c₂, n)) ∨
    (c ≠ [] ∧ ∃ o v c₂ n,
      process_page_chunk env a cache c =
        (c.map (successResult o c.length (parse_llm_response v.1 c)), c₂, n) ∧
      cacheLookup c₂ (create_cache_key env.doc c) = some v) := by
  rcases runChunkOcr_cases env a cache c with
    ⟨e, hsub, hrun⟩ | ⟨v, hl, ⟨zb, hsub⟩, hrun⟩ |
    ⟨hl, ⟨zb, hsub⟩, ⟨e, hllmE, hrun⟩ | ⟨r, hllmOk, hrun⟩⟩
  · exact Or.inl ⟨e, cache, 0, process_page_chunk_of_error env a cache c e cache 0 hrun⟩
  · refine Or.inr ⟨subset_ok_ne_nil env.pageCount c zb hsub,
      ⟨v.1, v.2.1, v.2.2, "cached"⟩, v, cache, 0, ?_, hl⟩
    exact process_page_chunk_of_ok env a cache c ⟨v.1, v.2.1, v.2.2, "cached"⟩ cache 0 hrun
  · exact Or.inl ⟨e, cache, 1, process_page_chunk_of_error env a cache c e cache 1 hrun⟩
  · refine Or.inr ⟨subset_ok_ne_nil env.pageCount c zb hsub,
      ⟨r.text, r.input_tokens, r.output_tokens, "llm"⟩,
      (r.text, r.input_tokens, r.output_tokens),
      cachePut cache (create_cache_key env.doc c)
        (r.text, r.input_tokens, r.output_tokens), 1, ?_, ?_⟩
    · exact process_page_chunk_of_ok env a cache c
        ⟨r.text, r.input_tokens, r.output_tokens, "llm"⟩ _ 1 hrun
    · exact cacheLookup_cachePut_self cache _ _

theorem runChunks_partition (env : Env) (a : Nat) :
    ∀ (CS : List (List Nat)) (cache : Cache),
      CS.Pairwise (fun c₁ c₂ => create_cache_key env.doc c₁ ≠ create_cache_key env.doc c₂) →
      CS.flatten.Nodup →
      ∃ FS : List (List Nat), FS.Sublist CS ∧
        (((runChunks env a CS cache).1.filter (fun r => !r.success)).map (fun r => r.page)
          = FS.flatten) ∧
        (∀ c ∈ CS, c ∉ FS → ChunkSettled env (runChunks env a CS cache).2.1
          (runChunks env a CS cache).1 c) ∧
        (∀ c ∈ FS, ∀ p ∈ c, ∀ r ∈ (runChunks env a CS cache).1, r.page = p →
          r.success = false) := by
  intro CS
  induction CS with
  | nil =>
    intro cache _ _
    exact ⟨[], List.Sublist.refl [], rfl,
      fun c hc => absurd hc (List.not_mem_nil c),
      fun c hc => absurd hc (List.not_mem_nil c)⟩
  | cons c CS' ih =>
    intro cache hpw hnd
    obtain ⟨hkey, hpw'⟩ := List.pairwise_cons.mp hpw
    rw [List.flatten_cons] at hnd
    obtain ⟨hndc, hnd', hdisj⟩ := List.nodup_append.mp hnd
    rcases process_page_chunk_dichotomy env a cache c with
      ⟨e, c₂, n, hppc⟩ | ⟨hcne, o, v, c₂, n, hppc, hlook⟩
    · -- the chunk fails wholesale: it joins the failing set
      obtain ⟨FSr, hsubr, hmapr, hsetr, hfailr⟩ := ih c₂ hpw' hnd'
      have hrun1 : (runChunks env a (c :: CS') cache).1 =
          c.map (failedResult e) ++ (runChunks env a CS' c₂).1 := by
        rw [runChunks_cons_1, hppc]
      have hrcache : (runChunks env a (c :: CS') cache).2.1 =
          (runChunks env a CS' c₂).2.1 := by
        rw [runChunks_cons_cache, hppc]
      refine ⟨c :: FSr, List.Sublist.cons₂ c hsubr, ?_, ?_, ?_⟩
      · rw [hrun1, List.filter_append, List.map_append]
        have hf1 : (c.map (failedResult e)).filter (fun r => !r.success)
            = c.map (failedResult e) := by
          rw [List.filter_eq_self]
          intro r hr
          rcases List.mem_map.mp hr with ⟨p, hp, rfl⟩
          rfl
        rw [hf1, map_page_of_pointwise _ (fun p => rfl) c, hmapr, List.flatten_cons]
      · intro c' hc' hnotin
        rcases List.mem_cons.mp hc' with rfl | hc''
        · exact absurd (List.mem_cons_self c' FSr) hnotin
        · have hnotr : c' ∉ FSr := fun hmem => hnotin (List.mem_cons_of_mem c hmem)
          obtain ⟨v', hv', hrec⟩ := hsetr c' hc'' hnotr
          refine ⟨v', by rw [hrcache]; exact hv', ?_⟩
          intro p hp r hr hrp
          rw [hrun1] at hr
          rcases List.mem_append.mp hr with hblk | hrest
          · exfalso
            rcases List.mem_map.mp hblk with ⟨q, hq, rfl⟩
            have hqp : q = p := hrp
            rw [hqp] at hq
            exact hdisj hq (List.mem_flatten.mpr ⟨c', hc'', hp⟩)
          · exact hrec p hp r hrest hrp
      · intro c' hc' p hp r hr hrp
        rw [hrun1] at hr
        rcases List.mem_cons.mp hc' with rfl | hc''
        · rcases List.mem_append.mp hr with hblk | hrest
          · rcases List.mem_map.mp hblk with ⟨q, hq, rfl⟩
            rfl
          · exfalso
            have hpr : r.page ∈ CS'.flatten := runChunks_mem env a CS' c₂ r hrest
            rw [hrp] at hpr
            exact hdisj hp hpr
        · rcases List.mem_append.mp hr with hblk | hrest
          · exfalso
            rcases List.mem_map.mp hblk with ⟨q, hq, rfl⟩
            have hqp : q = p := hrp
            rw [hqp] at hq
            exact hdisj hq (List.mem_flatten.mpr
              ⟨c', hsubr.subset hc'', hp⟩)
          · exact hfailr c' hc'' p hp r hrest hrp
    · -- the chunk succeeds: it is settled with the value under its key
      obtain ⟨FSr, hsubr, hmapr, hsetr, hfailr⟩ := ih c₂ hpw' hnd'
      have hrun1 : (runChunks env a (c :: CS') cache).1 =
          c.map (successResult o c.length (parse_llm_response v.1 c)) ++
            (runChunks env a CS' c₂).1 := by
        rw [runChunks_cons_1, hppc]
      have hrcache : (runChunks env a (c :: CS') cache).2.1 =
          (runChunks env a CS' c₂).2.1 := by
        rw [runChunks_cons_cache, hppc]
      refine ⟨FSr, List.Sublist.cons c hsubr, ?_, ?_, ?_⟩
      · rw [hrun1, List.filter_append, List.map_append]
        have hf1 : (c.map (successResult o c.length (parse_llm_response v.1 c))).filter
            (fun r => !r.success) = [] := by
          rw [List.filter_eq_nil_iff]
          intro r hr
          rcases List.mem_map.mp hr with ⟨p, hp, rfl⟩
          simp
        rw [hf1, hmapr]
        rfl
      · intro c' hc' hnotin
        rcases List.mem_cons.mp hc' with rfl | hc''
        · -- the freshly settled head chunk
          have hframe : cacheLookup ((runChunks env a CS' c₂).2.1)
              (create_cache_key env.doc c') = some v := by
            rw [runChunks_frame env a CS' c₂ _
              (fun x hx hkeq => hkey x hx hkeq.symm)]
            exact hlook
          refine ⟨v, by rw [hrcache]; exact hframe, ?_⟩
          intro p hp r hr hrp
          rw [hrun1] at hr
          rcases List.mem_append.mp hr with hblk | hrest
          · rcases List.mem_map.mp hblk with ⟨q, hq, rfl⟩
            have hqp : q = p := hrp
            subst hqp
            exact ⟨successResult_text o c'.length (parse_llm_response v.1 c') q, rfl⟩
          · exfalso
            have hpr : r.page ∈ CS'.flatten := runChunks_mem env a CS' c₂ r hrest
            rw [hrp] at hpr
            exact hdisj hp hpr
        · have hnotr : c' ∉ FSr := hnotin
          obtain ⟨v', hv', hrec⟩ := hsetr c' hc'' hnotr
          refine ⟨v', by rw [hrcache]; exact hv', ?_⟩
          intro p hp r hr hrp
          rw [hrun1] at hr
          rcases List.mem_append.mp hr with hblk | hrest
          · exfalso
            rcases List.mem_map.mp hblk with ⟨q, hq, rfl⟩
            have hqp : q = p := hrp
            rw [hqp] at hq
            exact hdisj hq (List.mem_flatten.mpr ⟨c', hc'', hp⟩)
          · exact hrec p hp r hrest hrp
      · intro c' hc' p hp r hr hrp
        rw [hrun1] at hr
        rcases List.mem_append.mp hr with hblk | hrest
        · exfalso
          rcases List.mem_map.mp hblk with ⟨q, hq, rfl⟩
          have hqp : q = p := hrp
          rw [hqp] at hq
          exact hdisj hq (List.mem_flatten.mpr ⟨c', hsubr.subset hc', hp⟩)
        · exact hfailr c' hc' p hp r hrest hrp

theorem filter_notsuccess_map_tag (a : Nat) (l : List PageResult) :
    (l.map (fun x => { x with retry_count := a })).filter (fun r => !r.success)
      = (l.filter (fun r => !r.success)).map (fun x => { x with retry_count := a }) := by
  rw [List.filter_map]
  rfl

theorem map_tag_page (a : Nat) (l : List PageResult) :
    (l.map (fun x => { x with retry_count := a })).map (fun r => r.page)
      = l.map (fun r => r.page) := by
  rw [List.map_map]
  rfl

theorem pySorted_eq_self (l : List Nat) (h : l.Pairwise (· ≤ ·)) : pySorted l = l :=
  insertionSort_eq_self _ l h

theorem foldl_replace_keeps (P : PageResult → Prop) (q : Nat) :
    ∀ (ss l : List PageResult), (∀ s ∈ ss, s.page ≠ q) →
      (∀ y ∈ l, y.page = q → P y) →
      ∀ x ∈ ss.foldl replaceByPage l, x.page = q → P x := by
  intro ss
  induction ss with
  | nil => intro l _ hl; exact hl
  | cons s rest ih =>
    intro l hss hl
    simp only [List.foldl_cons]
    apply ih (replaceByPage l s) (fun t ht => hss t (List.mem_cons_of_mem s ht))
    intro y hy hyq
    rcases replaceByPage_mem l s y hy with h | h
    · exact absurd hyq (h ▸ hss s (List.mem_cons_self s rest))
    · exact hl y h hyq

theorem replaceByPage_nodup_hit :
    ∀ (l : List PageResult), ((l.map (fun y => y.page)).Nodup) →
      ∀ (r x : PageResult), x ∈ replaceByPage l r → x.page = r.page →
        r.page ∈ l.map (fun y => y.page) → x = r := by
  intro l
  induction l with
  | nil => intro _ r x hx; simp [replaceByPage] at hx
  | cons y t ih =>
    intro hnd r x hx hxp hmem
    rw [List.map_cons, List.nodup_cons] at hnd
    obtain ⟨hyn, hndt⟩ := hnd
    by_cases h : y.page = r.page
    · simp only [replaceByPage, if_pos h] at hx
      rcases List.mem_cons.mp hx with rfl | hx'
      · rfl
      · exfalso
        apply hyn
        rw [h, ← hxp]
        exact List.mem_map_of_mem _ hx'
    · simp only [replaceByPage, if_neg h] at hx
      rcases List.mem_cons.mp hx with rfl | hx'
      · exact absurd hxp h
      · apply ih hndt r x hx' hxp
        rcases List.mem_cons.mp hmem with hm | hm
        · exact absurd hm.symm h
        · exact hm

theorem foldl_replace_hit :
    ∀ (ss l : List PageResult), ((l.map (fun y => y.page)).Nodup) →
      ((ss.map (fun y => y.page)).Nodup) →
      ∀ s ∈ ss, s.page ∈ l.map (fun y => y.page) →
        ∀ x ∈ ss.foldl replaceByPage l, x.page = s.page → x = s := by
  intro ss
  induction ss with
  | nil => intro l _ _ s hs; exact absurd hs (List.not_mem_nil s)
  | cons s₀ rest ih =>
    intro l hl hss s hs hmem x hx hxp
    rw [List.map_cons, List.nodup_cons] at hss
    obtain ⟨hs₀n, hssrest⟩ := hss
    simp only [List.foldl_cons] at hx
    rcases List.mem_cons.mp hs with heq | hs'
    · subst heq
      refine foldl_replace_keeps (fun y => y = s) s.page rest (replaceByPage l s)
        ?_ ?_ x hx hxp
      · intro t ht htp
        exact hs₀n (htp ▸ List.mem_map_of_mem _ ht)
      · intro y hy hyp
        exact replaceByPage_nodup_hit l hl s y hy hyp hmem
    · apply ih (replaceByPage l s₀) ?_ hssrest s hs' ?_ x hx hxp
      · rw [replaceByPage_map_page]
        exact hl
      · rw [replaceByPage_map_page]
        exact hmem

theorem retryLoop_settled (env : Env) (k : Nat) (hk : 1 ≤ k) (L : List Nat)
    (hnd : L.Nodup) (hle : L.Pairwise (· ≤ ·)) :
    ∀ (attempts : List Nat) (acc : BatchAcc) (FS : List (List Nat)),
      FS.Sublist (chunkList L k) →
      acc.failedPages.map (fun r => r.page) = FS.flatten →
      acc.results.map (fun r => r.page) = L →
      (∀ c ∈ chunkList L k, c ∉ FS → ChunkSettled env acc.cache acc.results c) →
      (∀ c ∈ FS, ∀ p ∈ c, ∀ r ∈ acc.results, r.page = p → r.success = false) →
      ∃ FS₂ : List (List Nat), FS₂.Sublist FS ∧
        (retryLoop env k attempts acc).failedPages.map (fun r => r.page) = FS₂.flatten ∧
        (retryLoop env k attempts acc).results.map (fun r => r.page) = L ∧
        (∀ c ∈ chunkList L k, c ∉ FS₂ →
          ChunkSettled env (retryLoop env k attempts acc).cache
            (retryLoop env k attempts acc).results c) ∧
        (∀ c ∈ FS₂, ∀ p ∈ c, ∀ r ∈ (retryLoop env k attempts acc).results, r.page = p →
          r.success = false) := by
  intro attempts
  induction attempts with
  | nil =>
    intro acc FS hsub hmap hres hset hfail
    exact ⟨FS, List.Sublist.refl FS, hmap, hres, hset, hfail⟩
  | cons a rest ih =>
    intro acc FS hsub hmap hres hset hfail
    rcases hfp : acc.failedPages with _ | ⟨r0, fr⟩
    · rw [retryLoop_no_failed env k (a :: rest) acc hfp]
      exact ⟨FS, List.Sublist.refl FS, hmap, hres, hset, hfail⟩
    · have hne : acc.failedPages.isEmpty = false := by rw [hfp]; rfl
      have hfsub : FS.flatten.Sublist L := by
        have h1 := flatten_sublist hsub
        rw [chunkList_flatten L k hk] at h1
        exact h1
      have hfle : FS.flatten.Pairwise (· ≤ ·) := List.Pairwise.sublist hfsub hle
      have hfnd : FS.flatten.Nodup := List.Nodup.sublist hfsub hnd
      have hsortEq : pySorted (acc.failedPages.map (fun x => x.page)) = FS.flatten := by
        rw [hmap]
        exact pySorted_eq_self _ hfle
      have hregroup : chunkList (pySorted (acc.failedPages.map (fun x => x.page))) k
          = FS := by
        rw [hsortEq]
        exact chunkList_reconstruct k hk FS
          (fun c hc => chunkList_ne_nil L k hk c (hsub.subset hc))
          (fun c hc => chunkList_length_le L k c (hsub.subset hc))
          (sublist_dropLast_length k hsub (chunkList_dropLast_length L k hk))
      have hpwFS : FS.Pairwise
          (fun c₁ c₂ => create_cache_key env.doc c₁ ≠ create_cache_key env.doc c₂) :=
        List.Pairwise.sublist hsub (chunkList_keys_pairwise env L k hk hnd)
      obtain ⟨FS', hsub', hmap', hset', hfail'⟩ :=
        runChunks_partition env a FS acc.cache hpwFS hfnd
      have hrfc1 : (retry_failed_chunks env k acc.failedPages a acc.cache).1
          = (runChunks env a FS acc.cache).1.map (fun x => { x with retry_count := a }) := by
        show ((runChunks env a
          (chunkList (pySorted (acc.failedPages.map (fun x => x.page))) k)
            acc.cache).1).map (fun x : PageResult => ({ x with retry_count := a } : PageResult))
          = ((runChunks env a FS acc.cache).1).map
            (fun x : PageResult => ({ x with retry_count := a } : PageResult))
        rw [hregroup]
      have hrfc2 : (retry_failed_chunks env k acc.failedPages a acc.cache).2.1
          = (runChunks env a FS acc.cache).2.1 := by
        show (runChunks env a
          (chunkList (pySorted (acc.failedPages.map (fun x => x.page))) k)
            acc.cache).2.1 = (runChunks env a FS acc.cache).2.1
        rw [hregroup]
      have hrfc3 : (retry_failed_chunks env k acc.failedPages a acc.cache).2.2
          = (runChunks env a FS acc.cache).2.2 := by
        show (runChunks env a
          (chunkList (pySorted (acc.failedPages.map (fun x => x.page))) k)
            acc.cache).2.2 = (runChunks env a FS acc.cache).2.2
        rw [hregroup]
      rw [retryLoop_cons_ne env k a rest acc hne, hrfc1, hrfc2, hrfc3]
      have hIH := ih
        { results := (mergeRetryResults acc.results
            ((runChunks env a FS acc.cache).1.map
              (fun x => { x with retry_count := a }))).1
          failedPages := (mergeRetryResults acc.results
            ((runChunks env a FS acc.cache).1.map
              (fun x => { x with retry_count := a }))).2
          cache := (runChunks env a FS acc.cache).2.1
          llmCalls := acc.llmCalls + (runChunks env a FS acc.cache).2.2
          retryTrace := acc.retryTrace ++
            [(a, pySorted (acc.failedPages.map (fun x => x.page)))] }
        FS' (hsub'.trans hsub) ?m2 ?m3 ?m4 ?m5
      case m2 =>
        show ((mergeRetryResults acc.results
            ((runChunks env a FS acc.cache).1.map
              (fun x => { x with retry_count := a }))).2).map (fun r => r.page)
          = FS'.flatten
        rw [mergeRetryResults_still_failed, filter_notsuccess_map_tag, map_tag_page]
        exact hmap'
      case m3 =>
        show ((mergeRetryResults acc.results
            ((runChunks env a FS acc.cache).1.map
              (fun x => { x with retry_count := a }))).1).map (fun r => r.page) = L
        rw [mergeRetryResults_map_page]
        exact hres
      case m4 =>
        intro c hc hnotin'
        by_cases hcFS : c ∈ FS
        · -- retried in this attempt and newly settled
          obtain ⟨v, hv, hrec⟩ := hset' c hcFS hnotin'
          refine ⟨v, hv, ?_⟩
          intro p hp x hx hxp
          have hpFSf : p ∈ FS.flatten := List.mem_flatten.mpr ⟨c, hcFS, hp⟩
          have hpRR : p ∈ ((runChunks env a FS acc.cache).1).map (fun r => r.page) := by
            rw [runChunks_pages env a FS acc.cache]
            exact hpFSf
          obtain ⟨rec, hrecmem, hrecp⟩ := List.mem_map.mp hpRR
          obtain ⟨htext, hsucc⟩ := hrec p hp rec hrecmem hrecp
          have hstag : ({ rec with retry_count := a } : PageResult) ∈
              ((runChunks env a FS acc.cache).1.map
                (fun x => { x with retry_count := a })).filter (fun r => r.success) := by
            rw [List.mem_filter]
            exact ⟨List.mem_map_of_mem _ hrecmem, hsucc⟩
          have hndss : ((((runChunks env a FS acc.cache).1.map
              (fun x => { x with retry_count := a })).filter (fun r => r.success)).map
                (fun y => y.page)).Nodup := by
            have h1 := (List.filter_sublist ((runChunks env a FS acc.cache).1.map
              (fun x => { x with retry_count := a }))
                (p := fun r => r.success)).map (fun y : PageResult => y.page)
            rw [map_tag_page, runChunks_pages env a FS acc.cache] at h1
            exact List.Nodup.sublist h1 hfnd
          have hmempage : ({ rec with retry_count := a } : PageResult).page ∈
              acc.results.map (fun y => y.page) := by
            rw [hres]
            show rec.page ∈ L
            rw [hrecp]
            exact hfsub.subset hpFSf
          rw [mergeRetryResults_aggregate] at hx
          have hxp' : x.page = ({ rec with retry_count := a } : PageResult).page := by
            show x.page = rec.page
            rw [hxp, hrecp]
          have hxeq := foldl_replace_hit _ acc.results
            (by rw [hres]; exact hnd) hndss _ hstag hmempage x hx hxp'
          rw [hxeq]
          exact ⟨htext, hsucc⟩
        · -- untouched by this attempt: still settled from before
          obtain ⟨v, hv, hrec⟩ := hset c hc hcFS
          refine ⟨v, ?_, ?_⟩
          · rw [runChunks_frame env a FS acc.cache _ ?_]
            · exact hv
            · intro x hxFS
              exact chunkList_keys_ne env L k hk hnd x (hsub.subset hxFS) c hc
                (fun he => hcFS (he ▸ hxFS))
          · intro p hp x hx hxp
            rw [mergeRetryResults_aggregate] at hx
            refine foldl_replace_keeps
              (fun y => y.text = some ((dictGet (parse_llm_response v.1 c) p).getD
                parseErrorMarker) ∧ y.success = true) p _ acc.results ?_ ?_ x hx hxp
            · intro s hs hsp
              rcases List.mem_filter.mp hs with ⟨hs1, _⟩
              rcases List.mem_map.mp hs1 with ⟨y, hy, rfl⟩
              have hyp : y.page ∈ FS.flatten := by
                rw [← runChunks_pages env a FS acc.cache]
                exact List.mem_map_of_mem _ hy
              have hyp2 : y.page = p := hsp
              rw [hyp2] at hyp
              obtain ⟨c', hc', hp'⟩ := List.mem_flatten.mp hyp
              have hcc : c = c' := chunkList_chunk_unique L k hk hnd c hc c'
                (hsub.subset hc') p hp hp'
              exact hcFS (hcc ▸ hc')
            · intro y hy hyp
              exact hrec p hp y hy hyp
      case m5 =>
        intro c hc' p hp x hx hxp
        rw [mergeRetryResults_aggregate] at hx
        refine foldl_replace_preserves p _ acc.results ?_ ?_ x hx hxp
        · intro s hs hsp
          rcases List.mem_filter.mp hs with ⟨hs1, hs2⟩
          rcases List.mem_map.mp hs1 with ⟨y, hy, rfl⟩
          have hsp2 : y.page = p := hsp
          have hysucc : y.success = false := hfail' c hc' p hp y hy hsp2
          have hs2' : y.success = true := hs2
          rw [hysucc] at hs2'
          exact Bool.noConfusion hs2'
        · intro y hy hyp
          exact hfail c (hsub'.subset hc') p hp y hy hyp
      obtain ⟨FS₂, hA, hB, hC, hD, hE⟩ := hIH
      exact ⟨FS₂, hA.trans hsub', hB, hC, hD, hE⟩

theorem subset_ok_of_in_range (pageCount : Nat) (c : List Nat) (hne : c ≠ [])
    (hin : ∀ p ∈ c, 1 ≤ p ∧ p ≤ pageCount) :
    ∃ zb, create_pdf_subset_bytes pageCount c = Except.ok zb := by
  cases c with
  | nil => exact absurd rfl hne
  | cons x xs =>
    have hcond : 1 ≤ x ∧ x ≤ pageCount := hin x (List.mem_cons_self x xs)
    have hX : (x :: xs).filterMap
        (fun p => if 1 ≤ p ∧ p ≤ pageCount then some (p - 1) else none)
        = (x - 1) :: xs.filterMap
          (fun p => if 1 ≤ p ∧ p ≤ pageCount then some (p - 1) else none) := by
      simp [List.filterMap_cons, hcond]
    refine ⟨(x - 1) :: xs.filterMap
      (fun p => if 1 ≤ p ∧ p ≤ pageCount then some (p - 1) else none), ?_⟩
    simp only [create_pdf_subset_bytes]
    rw [hX, if_neg (List.cons_ne_nil _ _)]

theorem runChunks_all_hit (env : Env) (a : Nat) :
    ∀ (CS : List (List Nat)) (cache : Cache),
      (∀ c ∈ CS, ∃ zb, create_pdf_subset_bytes env.pageCount c = Except.ok zb) →
      (∀ c ∈ CS, ∃ v, cacheLookup cache (create_cache_key env.doc c) = some v) →
      CS.flatten.Nodup →
      (runChunks env a CS cache).2.1 = cache ∧
      (runChunks env a CS cache).2.2 = 0 ∧
      ∀ r ∈ (runChunks env a CS cache).1,
        r.method = "cached" ∧ r.success = true ∧
        ∀ c ∈ CS, r.page ∈ c → ∀ v, cacheLookup cache (create_cache_key env.doc c) = some v →
          r.text = some ((dictGet (parse_llm_response v.1 c) r.page).getD parseErrorMarker) := by
  intro CS
  induction CS with
  | nil =>
    intro cache _ _ _
    exact ⟨rfl, rfl, fun r hr => absurd hr (List.not_mem_nil r)⟩
  | cons c CS' ih =>
    intro cache hsubok hhit hnd
    rw [List.flatten_cons] at hnd
    obtain ⟨hndc, hnd', hdisj⟩ := List.nodup_append.mp hnd
    obtain ⟨zb, hzb⟩ := hsubok c (List.mem_cons_self c CS')
    obtain ⟨v, hv⟩ := hhit c (List.mem_cons_self c CS')
    have hrun : runChunkOcr env a cache c =
        (Except.ok ⟨v.1, v.2.1, v.2.2, "cached"⟩, cache, 0) := by
      unfold runChunkOcr
      rw [hzb, hv]
    have hppc := process_page_chunk_of_ok env a cache c
      ⟨v.1, v.2.1, v.2.2, "cached"⟩ cache 0 hrun
    obtain ⟨ih1, ih2, ih3⟩ := ih cache
      (fun x hx => hsubok x (List.mem_cons_of_mem c hx))
      (fun x hx => hhit x (List.mem_cons_of_mem c hx)) hnd'
    refine ⟨?_, ?_, ?_⟩
    · rw [runChunks_cons_cache, hppc]
      exact ih1
    · rw [runChunks_cons_calls, hppc]
      show 0 + (runChunks env a CS' cache).2.2 = 0
      rw [ih2]
    · intro r hr
      rw [runChunks_cons_1, hppc] at hr
      have hr' : r ∈ c.map (successResult ⟨v.1, v.2.1, v.2.2, "cached"⟩ c.length
          (parse_llm_response v.1 c)) ++ (runChunks env a CS' cache).1 := hr
      rcases List.mem_append.mp hr' with hblk | hrest
      · rcases List.mem_map.mp hblk with ⟨q, hq, rfl⟩
        refine ⟨rfl, rfl, ?_⟩
        intro c' hc' hpc' v' hv'
        rcases List.mem_cons.mp hc' with rfl | hc''
        · rw [hv] at hv'
          injection hv' with hv''
          subst hv''
          rw [successResult_text, successResult_page]
        · exfalso
          have hqc' : (successResult ⟨v.1, v.2.1, v.2.2, "cached"⟩ c.length
              (parse_llm_response v.1 c) q).page ∈ c' := hpc'
          rw [successResult_page] at hqc'
          exact hdisj hq (List.mem_flatten.mpr ⟨c', hc'', hqc'⟩)
      · obtain ⟨hm, hs, htext⟩ := ih3 r hrest
        refine ⟨hm, hs, ?_⟩
        intro c' hc' hpc' v' hv'
        rcases List.mem_cons.mp hc' with rfl | hc''
        · exfalso
          have hpfl : r.page ∈ CS'.flatten := runChunks_mem env a CS' cache r hrest
          exact hdisj hpc' hpfl
        · exact htext c' hc'' hpc' v' hv'

theorem map_pageText_eq_of_pointwise :
    ∀ (rs₁ rs₂ : List PageResult),
      rs₁.map (fun r => r.page) = rs₂.map (fun r => r.page) →
      (∀ r₁ ∈ rs₁, ∀ r₂ ∈ rs₂, r₁.page = r₂.page → r₁.text = r₂.text) →
      rs₁.map (fun r => (r.page, r.text)) = rs₂.map (fun r => (r.page, r.text)) := by
  intro rs₁
  induction rs₁ with
  | nil =>
    intro rs₂ hmap _
    have h2 : rs₂ = [] := by
      cases rs₂ with
      | nil => rfl
      | cons y t => exact absurd hmap.symm (by simp)
    rw [h2]
  | cons x t ih =>
    intro rs₂ hmap hpt
    cases rs₂ with
    | nil => exact absurd hmap (by simp)
    | cons y s =>
      simp only [List.map_cons] at hmap ⊢
      injection hmap with h1 h2
      have hxy : x.text = y.text :=
        hpt x (List.mem_cons_self x t) y (List.mem_cons_self y s) h1
      rw [h1, hxy, ih s h2 (fun r₁ hr₁ r₂ hr₂ =>
        hpt r₁ (List.mem_cons_of_mem x hr₁) r₂ (List.mem_cons_of_mem y hr₂))]

theorem buildTextParts_congr :
    ∀ (rs₁ rs₂ : List PageResult),
      rs₁.map (fun r => (r.page, r.text)) = rs₂.map (fun r => (r.page, r.text)) →
      buildTextParts rs₁ = buildTextParts rs₂ := by
  intro rs₁
  induction rs₁ with
  | nil =>
    intro rs₂ h
    cases rs₂ with
    | nil => rfl
    | cons y s => exact absurd h (by simp)
  | cons x t ih =>
    intro rs₂ h
    cases rs₂ with
    | nil => exact absurd h (by simp)
    | cons y s =>
      simp only [List.map_cons] at h
      injection h with h1 h2
      have hpage : x.page = y.page := congrArg Prod.fst h1
      have htext : x.text = y.text := congrArg Prod.snd h1
      simp only [buildTextParts, List.filterMap_cons]
      rw [htext, hpage]
      have ht := ih s h2
      simp only [buildTextParts] at ht
      rw [ht]

/-- Claim C2, counterexample: a completed first run does not guarantee a
warm cache. With an LLM that raises on every call, the first batch completes
(via offline fallback) but caches nothing, so the immediate second identical
request issues 2 fresh LLM call attempts and serves no page from the cache —
not zero calls and not a 100% hit rate. -/
theorem warm_cache_idempotence_cex :
    (process_document_async envLlmDown 1 1 1 1
        (process_document_async envLlmDown 1 1 1 1 []).cache).llmCalls = 2 ∧
      (process_document_async envLlmDown 1 1 1 1
        (process_document_async envLlmDown 1 1 1 1 []).cache).result.cached_pages = [] ∧
      (process_document_async envLlmDown 1 1 1 1 []).result.successful_pages = [1] :=
  ⟨rfl, rfl, rfl⟩

/-- Claim C2, amended: for a valid PageRequest whose first run finalizes no
page via the offline fallback — every chunk succeeds on the initial pass or
on some retry attempt, i.e. `fallback_pages` is empty — resubmitting the
same request against the resulting cache yields zero new LLM calls, serves
every requested page from the cache, uses neither fresh LLM nor fallback
extraction, and produces identical full text. (Chunk failures are
all-or-nothing and retry regrouping reproduces exactly the still-failing
chunks, so a successful retry caches under the very key the rerun looks
up; only fallback-finalized chunks leave their keys cold.) -/
theorem warm_cache_idempotent (env : Env) (k maxR start e : Nat) (c₀ : Cache)
    (hk : 1 ≤ k) (h1 : 1 ≤ start) (hse : start ≤ e) (hpc : e ≤ env.pageCount)
    (hnofb : (process_document_async env k maxR start e c₀).result.fallback_pages = []) :
    (process_document_async env k maxR start e
        (process_document_async env k maxR start e c₀).cache).llmCalls = 0 ∧
      (process_document_async env k maxR start e
        (process_document_async env k maxR start e c₀).cache).result.full_text =
        (process_document_async env k maxR start e c₀).result.full_text ∧
      (process_document_async env k maxR start e
        (process_document_async env k maxR start e c₀).cache).result.cached_pages =
        List.range' start (e + 1 - start) ∧
      (process_document_async env k maxR start e
        (process_document_async env k maxR start e c₀).cache).result.llm_pages = [] ∧
      (process_document_async env k maxR start e
        (process_document_async env k maxR start e c₀).cache).result.fallback_pages = [] := by
  have hnd : (List.range' start (e + 1 - start)).Nodup :=
    List.nodup_range' start (e + 1 - start)
  have hle : (List.range' start (e + 1 - start)).Pairwise (· ≤ ·) :=
    (List.pairwise_lt_range' ..).imp Nat.le_of_lt
  have hpw := chunkList_keys_pairwise env (List.range' start (e + 1 - start)) k hk hnd
  have hndCS : ((chunkList (List.range' start (e + 1 - start)) k).flatten).Nodup := by
    rw [chunkList_flatten _ k hk]
    exact hnd
  obtain ⟨FS₀, hFS₀sub, hFS₀map, hFS₀set, hFS₀fail⟩ :=
    runChunks_partition env 0 (chunkList (List.range' start (e + 1 - start)) k) c₀ hpw hndCS
  obtain ⟨FS₂, hFS₂sub, hFS₂map, hFS₂res, hFS₂set, hFS₂fail⟩ :=
    retryLoop_settled env k hk (List.range' start (e + 1 - start)) hnd hle
      (List.range' 1 maxR)
      { results := (runChunks env 0 (chunkList (List.range' start (e + 1 - start)) k) c₀).1
        failedPages :=
          ((runChunks env 0 (chunkList (List.range' start (e + 1 - start)) k) c₀).1).filter
            (fun r => !r.success)
        cache := (runChunks env 0 (chunkList (List.range' start (e + 1 - start)) k) c₀).2.1
        llmCalls := (runChunks env 0 (chunkList (List.range' start (e + 1 - start)) k) c₀).2.2
        retryTrace := [] }
      FS₀ hFS₀sub hFS₀map
      (by rw [runChunks_pages env 0 _ c₀, chunkList_flatten _ k hk])
      hFS₀set hFS₀fail
  generalize hACC : retryLoop env k (List.range' 1 maxR)
      { results := (runChunks env 0 (chunkList (List.range' start (e + 1 - start)) k) c₀).1
        failedPages :=
          ((runChunks env 0 (chunkList (List.range' start (e + 1 - start)) k) c₀).1).filter
            (fun r => !r.success)
        cache := (runChunks env 0 (chunkList (List.range' start (e + 1 - start)) k) c₀).2.1
        llmCalls := (runChunks env 0 (chunkList (List.range' start (e + 1 - start)) k) c₀).2.2
        retryTrace := [] } = accF
  rw [hACC] at hFS₂map hFS₂res hFS₂set hFS₂fail
  have hallsucc : ∀ r ∈ accF.results, r.success = true := by
    intro r hr
    cases hsv : r.success
    · exfalso
      have hcond : ¬(r.success = true) := by
        rw [hsv]
        exact Bool.false_ne_true
      have hmem1 : ({ r with
          text := some (extract_with_pymupdf_fallback env r.page),
          method := "pymupdf_fallback", success := true, error := none } : PageResult)
          ∈ applyFallback env accF.results := by
        unfold applyFallback
        refine List.mem_map.mpr ⟨r, hr, ?_⟩
        exact if_neg hcond
      have hmem2 := (sortByPage_mem (applyFallback env accF.results) _).mpr hmem1
      have hfb : ({ r with
          text := some (extract_with_pymupdf_fallback env r.page),
          method := "pymupdf_fallback", success := true, error := none } : PageResult).page ∈
          (process_document_async env k maxR start e c₀).result.fallback_pages := by
        rw [batch_fallback_pages_def]
        refine List.mem_map_of_mem _ (List.mem_filter.mpr ⟨?_, ?_⟩)
        · rw [batch_finalResults_def, hACC]
          exact hmem2
        · show (("pymupdf_fallback" : String) == "pymupdf_fallback") = true
          decide
      rw [hnofb] at hfb
      exact absurd hfb (List.not_mem_nil _)
    · rfl
  have hFS₂nil : FS₂ = [] := by
    cases FS₂ with
    | nil => rfl
    | cons c t =>
      exfalso
      have hcCS : c ∈ chunkList (List.range' start (e + 1 - start)) k :=
        (hFS₂sub.trans hFS₀sub).subset (List.mem_cons_self c t)
      have hcne := chunkList_ne_nil (List.range' start (e + 1 - start)) k hk c hcCS
      rcases List.exists_mem_of_ne_nil c hcne with ⟨p, hp⟩
      have hpL : p ∈ List.range' start (e + 1 - start) :=
        chunkList_mem_subset _ k hk c hcCS p hp
      have hpm : p ∈ accF.results.map (fun r => r.page) := by
        rw [hFS₂res]
        exact hpL
      rcases List.mem_map.mp hpm with ⟨r, hrmem, hrp⟩
      have hff := hFS₂fail c (List.mem_cons_self c t) p hp r hrmem hrp
      rw [hallsucc r hrmem] at hff
      exact Bool.noConfusion hff
  subst hFS₂nil
  have hsettledAll : ∀ c ∈ chunkList (List.range' start (e + 1 - start)) k,
      ChunkSettled env accF.cache accF.results c :=
    fun c hc => hFS₂set c hc (List.not_mem_nil c)
  have hsubokAll : ∀ c ∈ chunkList (List.range' start (e + 1 - start)) k,
      ∃ zb, create_pdf_subset_bytes env.pageCount c = Except.ok zb := by
    intro c hc
    refine subset_ok_of_in_range env.pageCount c (chunkList_ne_nil _ k hk c hc) ?_
    intro p hp
    have hpL := chunkList_mem_subset _ k hk c hc p hp
    obtain ⟨hp1, hp2⟩ := List.mem_range'_1.mp hpL
    exact ⟨by omega, by omega⟩
  have hhitAll : ∀ c ∈ chunkList (List.range' start (e + 1 - start)) k,
      ∃ v, cacheLookup accF.cache (create_cache_key env.doc c) = some v := by
    intro c hc
    obtain ⟨v, hv, _⟩ := hsettledAll c hc
    exact ⟨v, hv⟩
  obtain ⟨hcache2, hcalls2, hrec2⟩ :=
    runChunks_all_hit env 0 (chunkList (List.range' start (e + 1 - start)) k)
      accF.cache hsubokAll hhitAll hndCS
  have hall2 : ∀ r ∈ (runChunks env 0 (chunkList (List.range' start (e + 1 - start)) k)
      accF.cache).1, r.success = true := fun r hr => (hrec2 r hr).2.1
  have hfail2 : ((runChunks env 0 (chunkList (List.range' start (e + 1 - start)) k)
      accF.cache).1).filter (fun r => !r.success) = [] := by
    rw [List.filter_eq_nil_iff]
    intro r hr
    simp [hall2 r hr]
  have hpages2 : ((runChunks env 0 (chunkList (List.range' start (e + 1 - start)) k)
      accF.cache).1).map (fun r => r.page) = List.range' start (e + 1 - start) := by
    rw [runChunks_pages env 0 _ accF.cache, chunkList_flatten _ k hk]
  have hfin1 : (process_document_async env k maxR start e c₀).finalResults =
      accF.results := by
    rw [batch_finalResults_def, hACC, applyFallback_all_success env _ hallsucc]
    exact sortByPage_eq_self _ (pairwise_of_map_range' _ start (e + 1 - start) hFS₂res)
  have hcache1 : (process_document_async env k maxR start e c₀).cache = accF.cache := by
    rw [batch_cache_def, hACC]
  have hfin2 : (process_document_async env k maxR start e accF.cache).finalResults =
      (runChunks env 0 (chunkList (List.range' start (e + 1 - start)) k) accF.cache).1 := by
    rw [batch_finalResults_def, retryLoop_collapse env k maxR _ _ _ hfail2]
    show sortByPage (applyFallback env
      ((runChunks env 0 (chunkList (List.range' start (e + 1 - start)) k) accF.cache).1)) = _
    rw [applyFallback_all_success env _ hall2]
    exact sortByPage_eq_self _ (pairwise_of_map_range' _ start (e + 1 - start) hpages2)
  rw [hcache1]
  refine ⟨?_, ?_, ?_, ?_, ?_⟩
  · rw [batch_llmCalls_def, retryLoop_collapse env k maxR _ _ _ hfail2]
    show (runChunks env 0 (chunkList (List.range' start (e + 1 - start)) k)
      accF.cache).2.2 = 0
    exact hcalls2
  · rw [batch_full_text_def, batch_full_text_def, batch_text_parts_def,
      batch_text_parts_def, hfin2, hfin1]
    have hpteq : ((runChunks env 0 (chunkList (List.range' start (e + 1 - start)) k)
        accF.cache).1).map (fun r => (r.page, r.text)) =
        accF.results.map (fun r => (r.page, r.text)) := by
      refine map_pageText_eq_of_pointwise _ _ (by rw [hpages2, hFS₂res]) ?_
      intro r₁ h₁ r₂ h₂ hpp
      have hp1 : r₁.page ∈ (chunkList (List.range' start (e + 1 - start)) k).flatten :=
        runChunks_mem env 0 _ accF.cache r₁ h₁
      obtain ⟨c, hcCS, hpcm⟩ := List.mem_flatten.mp hp1
      obtain ⟨v, hv, hrec⟩ := hsettledAll c hcCS
      have ht₂ := (hrec r₁.page hpcm r₂ h₂ hpp.symm).1
      have ht₁ := (hrec2 r₁ h₁).2.2 c hcCS hpcm v hv
      rw [ht₁, ht₂]
    rw [buildTextParts_congr _ _ hpteq]
  · have hfltA : (((runChunks env 0 (chunkList (List.range' start (e + 1 - start)) k)
        accF.cache).1).filter (fun r : PageResult => r.method == "cached")) =
        (runChunks env 0 (chunkList (List.range' start (e + 1 - start)) k)
          accF.cache).1 := by
      rw [List.filter_eq_self]
      intro r hr
      rw [(hrec2 r hr).1]
      decide
    rw [batch_cached_pages_def, hfin2, hfltA, hpages2]
  · have hfltB : (((runChunks env 0 (chunkList (List.range' start (e + 1 - start)) k)
        accF.cache).1).filter (fun r : PageResult => r.method == "llm")) = [] := by
      rw [List.filter_eq_nil_iff]
      intro r hr
      rw [(hrec2 r hr).1]
      decide
    rw [batch_llm_pages_def, hfin2, hfltB]
    rfl
  · have hfltC : (((runChunks env 0 (chunkList (List.range' start (e + 1 - start)) k)
        accF.cache).1).filter (fun r : PageResult => r.method == "pymupdf_fallback")) = [] := by
      rw [List.filter_eq_nil_iff]
      intro r hr
      rw [(hrec2 r hr).1]
      decide
    rw [batch_fallback_pages_def, hfin2, hfltC]
    rfl

/-- Witness for the amended C2 theorem: four pages in chunks of two with an
LLM that fails the whole initial pass and succeeds on every retry, so the
first run is resolved entirely by retries and finalizes nothing via the
offline fallback; the rerun against the first run's cache serves all pages
from the cache with zero LLM calls and identical text. -/
theorem warm_cache_idempotent_witness :
    (process_document_async envFlaky 2 3 1 4
        (process_document_async envFlaky 2 3 1 4 []).cache).llmCalls = 0 ∧
      (process_document_async envFlaky 2 3 1 4
        (process_document_async envFlaky 2 3 1 4 []).cache).result.full_text =
        (process_document_async envFlaky 2 3 1 4 []).result.full_text ∧
      (process_document_async envFlaky 2 3 1 4
        (process_document_async envFlaky 2 3 1 4 []).cache).result.cached_pages =
        List.range' 1 (4 + 1 - 1) ∧
      (process_document_async envFlaky 2 3 1 4
        (process_document_async envFlaky 2 3 1 4 []).cache).result.llm_pages = [] ∧
      (process_document_async envFlaky 2 3 1 4
        (process_document_async envFlaky 2 3 1 4 []).cache).result.fallback_pages = [] :=
  warm_cache_idempotent envFlaky 2 3 1 4 [] (by decide) (by decide) (by decide) (by decide)
    (by decide)


theorem countP_set_exchange (p : TaskPhase → Bool) :
    ∀ (l : List TaskPhase) (i : Nat) (a b : TaskPhase), l.get? i = some a →
      (l.set i b).countP p + (if p a then 1 else 0) =
        l.countP p + (if p b then 1 else 0) := by
  intro l
  induction l with
  | nil => intro i a b h; simp at h
  | cons x xs ih =>
    intro i a b h
    cases i with
    | zero =>
      simp only [List.get?] at h
      injection h with h
      subst h
      simp only [List.set]
      rw [List.countP_cons, List.countP_cons]
      omega
    | succ j =>
      simp only [List.get?] at h
      simp only [List.set]
      rw [List.countP_cons, List.countP_cons]
      have := ih j a b h
      omega

theorem gateStep_invariant (s₁ s₂ : GateSystem) (hs : GateStep s₁ s₂) :
    s₂.limit = s₁.limit ∧ (holdingCount s₁ ≤ s₁.limit → holdingCount s₂ ≤ s₁.limit) := by
  cases hs with
  | acquire i hi hfree =>
    refine ⟨rfl, fun _ => ?_⟩
    have hx := countP_set_exchange (fun t => t == TaskPhase.holding) s₁.tasks i
      TaskPhase.notStarted TaskPhase.holding hi
    unfold holdingCount at *
    simp at hx
    show List.countP (fun t => t == TaskPhase.holding)
      (s₁.tasks.set i TaskPhase.holding) ≤ s₁.limit
    omega
  | release i hi =>
    refine ⟨rfl, fun h => ?_⟩
    have hx := countP_set_exchange (fun t => t == TaskPhase.holding) s₁.tasks i
      TaskPhase.holding TaskPhase.done hi
    unfold holdingCount at *
    simp at hx
    show List.countP (fun t => t == TaskPhase.holding)
      (s₁.tasks.set i TaskPhase.done) ≤ s₁.limit
    omega

theorem gateReachable_invariant (init s : GateSystem)
    (h : GateReachable init s) (hinit : holdingCount init ≤ init.limit) :
    s.limit = init.limit ∧ holdingCount s ≤ init.limit := by
  induction h with
  | refl => exact ⟨rfl, hinit⟩
  | tail h₁ h₂ ih =>
    have hstep := gateStep_invariant _ _ h₂
    refine ⟨hstep.1.trans ih.1, ?_⟩
    have := hstep.2 (by rw [ih.1]; exact ih.2)
    rw [ih.1] at this
    exact this

/-- Claim C9: in every state reachable by any interleaving of the batch's
chunk tasks — initial pass and retries combined, all gated by the one
semaphore the orchestrator creates — at most `OCR_CONCURRENT_REQUESTS`
tasks hold the semaphore simultaneously. -/
theorem semaphore_bound (env : Env) (k maxR start e : Nat) (c₀ : Cache) (s : GateSystem)
    (h : GateReachable (batchGateInit env k maxR start e c₀) s) :
    holdingCount s ≤ OCR_CONCURRENT_REQUESTS := by
  have hzero : holdingCount (batchGateInit env k maxR start e c₀) = 0 := by
    unfold holdingCount batchGateInit
    rw [List.countP_eq_zero]
    intro a ha
    rcases List.mem_map.mp ha with ⟨x, _, rfl⟩
    decide
  have hinit : holdingCount (batchGateInit env k maxR start e c₀) ≤
      (batchGateInit env k maxR start e c₀).limit := by
    rw [hzero]
    exact Nat.zero_le _
  exact (gateReachable_invariant _ s h hinit).2

/-- Witness for C9: after one task of a concrete batch acquires the
semaphore, the bound holds in the reached state. -/
theorem semaphore_bound_witness :
    holdingCount
      ⟨(batchGateInit envGood 2 3 1 5 []).limit,
        (batchGateInit envGood 2 3 1 5 []).tasks.set 0 TaskPhase.holding⟩ ≤
      OCR_CONCURRENT_REQUESTS :=
  semaphore_bound envGood 2 3 1 5 [] _
    (Relation.ReflTransGen.single
      (GateStep.acquire (batchGateInit envGood 2 3 1 5 []) 0 (by rfl) (by decide)))


end PdfOcr
